import Mathlib

/-!
# go-universal/logger: asynchronous, file-rotating logger

A shallow embedding of `level.go`, `log.go`, `time.go` and `logger.go`.

* Go strings are `String`; the helpers of package `strings`, `path` and `fmt`
  that the source calls are written on the character list of the string.
* `time.Time` is the record `Time`; a `TimeFormatter` is any function
  `Time → String → String`, as in `time.go`.
* A value of static type `any` is a `Value`; `jsonMarshal` is `json.Marshal`
  on that universe and returns `none` where `json.Marshal` returns an error.
* `func(*log)` is a state transformer `log → log`.
* The logger record carries, next to the fields of the Go struct, the
  buffered channel (pending events and the closed bit) and the part of the
  operating system the worker acts on (`OS`).
-/

namespace GoLogger

/-! ## Library functions used by the source -/

/-- Go `unicode.IsSpace`: the code points with the White_Space property. -/
def isSpace (c : Char) : Bool :=
  let n := c.toNat
  (9 ≤ n && n ≤ 13) || n = 32 || n = 0x85 || n = 0xA0 || n = 0x1680 ||
  (0x2000 ≤ n && n ≤ 0x200A) || n = 0x2028 || n = 0x2029 || n = 0x202F ||
  n = 0x205F || n = 0x3000

/-- Go `strings.TrimSpace`: leading and trailing white space removed. -/
def TrimSpace (s : String) : String :=
  ⟨((s.data.dropWhile isSpace).reverse.dropWhile isSpace).reverse⟩

/-- Go `strings.TrimLeft(s, cutset)`: the leading characters of `s` that occur
in `cutset` removed. -/
def TrimLeft (s cutset : String) : String :=
  ⟨s.data.dropWhile (fun c => cutset.data.contains c)⟩

/-- Go `strings.Join`. -/
def Join : List String → String → String
  | [], _ => ""
  | [a], _ => a
  | a :: b :: rest, sep => a ++ sep ++ Join (b :: rest) sep

/-- Split a character list at every `/`. -/
def splitSlash : List Char → List (List Char)
  | [] => [[]]
  | c :: cs =>
    match splitSlash cs with
    | [] => [[]]
    | seg :: segs => if c = '/' then [] :: seg :: segs else (c :: seg) :: segs

/-- The element loop of Go `path.Clean`, on the elements of the path; `out` is
the stack of elements kept so far, innermost first. Empty and `.` elements are
dropped; `..` removes the preceding element when there is one that is not
itself `..`, is kept on a path that is not rooted, and is dropped at the root. -/
def cleanElems (rooted : Bool) : List (List Char) → List (List Char) → List (List Char)
  | [], out => out
  | e :: es, out =>
    if e = [] ∨ e = ['.'] then cleanElems rooted es out
    else if e = ['.', '.'] then
      match out with
      | top :: below =>
        if top = ['.', '.'] then cleanElems rooted es (e :: out)
        else cleanElems rooted es below
      | [] => if rooted then cleanElems rooted es [] else cleanElems rooted es [e]
    else cleanElems rooted es (e :: out)

/-- Go `path.Clean`. -/
def pathClean (p : String) : String :=
  let rooted := p.data.head? = some '/'
  let kept := (cleanElems rooted (splitSlash p.data) []).reverse
  let body := (if rooted then ['/'] else []) ++ List.intercalate ['/'] kept
  if body = [] then "." else ⟨body⟩

/-- Go `path.Join` of two elements: empty elements are ignored, the rest is
joined with `/` and cleaned; the result is empty only when both are empty. -/
def pathJoin (a b : String) : String :=
  if a = "" ∧ b = "" then ""
  else if a = "" then pathClean b
  else if b = "" then pathClean a
  else pathClean (a ++ "/" ++ b)

/-- Decimal digits of a natural number. -/
def natRepr (n : Nat) : String := ⟨Nat.toDigits 10 n⟩

/-- Go formatting of an `int64` with `%d`, `%v` and by `json.Marshal`. -/
def intRepr : Int → String
  | Int.ofNat n => natRepr n
  | Int.negSucc n => "-" ++ natRepr (n + 1)

/-- Lower-case hexadecimal digit. -/
def hexDigit (n : Nat) : Char := "0123456789abcdef".data.getD n '0'

/-- Four hexadecimal digits of a code point below `0x10000`. -/
def hex4 (n : Nat) : List Char :=
  [hexDigit (n / 4096 % 16), hexDigit (n / 256 % 16), hexDigit (n / 16 % 16), hexDigit (n % 16)]

/-- The escape `encoding/json` writes for one character of a string, HTML
escaping on (the default of `json.Marshal`). -/
def jsonEscapeChar (c : Char) : List Char :=
  if c = '"' then ['\\', '"']
  else if c = '\\' then ['\\', '\\']
  else if c = '\n' then ['\\', 'n']
  else if c = '\r' then ['\\', 'r']
  else if c = '\t' then ['\\', 't']
  else if c = '\x08' then ['\\', 'b']
  else if c = '\x0c' then ['\\', 'f']
  else if c.toNat < 0x20 ∨ c = '<' ∨ c = '>' ∨ c = '&' ∨ c.toNat = 0x2028 ∨ c.toNat = 0x2029 then
    ['\\', 'u'] ++ hex4 c.toNat
  else [c]

/-- JSON encoding of a Go string by `encoding/json`. -/
def jsonString (s : String) : String :=
  ⟨['"'] ++ (s.data.map jsonEscapeChar).flatten ++ ['"']⟩

/-- Go `fmt.Sprintf("%5s", s)`: `s` padded with blanks on the left to width 5. -/
def pad5 (s : String) : String :=
  ⟨List.replicate (5 - s.length) ' ' ++ s.data⟩

/-! ## level.go -/

/-- The Go type `Level`, a string type. -/
abbrev Level := String

def levelDebug : Level := "DEBUG"
def levelInfo : Level := "INFO"
def levelWarn : Level := "WARN"
def levelError : Level := "ERROR"
def levelPanic : Level := "PANIC"

/-! ## time.go -/

/-- An instant: `time.Time` as its Unix seconds and the nanoseconds within the
second. -/
structure Time where
  sec : Int
  nsec : Nat
deriving DecidableEq, Repr

/-- Go `Time.Unix`. -/
def Time.Unix (t : Time) : Int := t.sec

/-- The Go type `TimeFormatter`. -/
abbrev TimeFormatter := Time → String → String

/-! ## log.go -/

/-- The values a caller attaches: the part of Go `any` the development needs.
`chan` stands for a channel value, which `json.Marshal` rejects; `addr` is the
address `%v` prints, and `0` is the nil channel. -/
inductive Value where
  | null : Value
  | bool (b : Bool) : Value
  | int (i : Int) : Value
  | str (s : String) : Value
  | chan (addr : Nat) : Value
deriving DecidableEq, Repr

/-- Go `json.Marshal` on `Value`; `none` is the error result
(`UnsupportedTypeError` for a channel). -/
def jsonMarshal : Value → Option String
  | .null => some "null"
  | .bool true => some "true"
  | .bool false => some "false"
  | .int i => some (intRepr i)
  | .str s => some (jsonString s)
  | .chan _ => none

/-- Go `string(encoded)` for `encoded, _ := json.Marshal(v)`: on an error the
byte slice is nil and its string is empty. -/
def marshalText (v : Value) : String := (jsonMarshal v).getD ""

/-- Go `fmt.Sprintf("%v", v)`. -/
def fmtV : Value → String
  | .null => "<nil>"
  | .bool true => "true"
  | .bool false => "false"
  | .int i => intRepr i
  | .str s => s
  | .chan addr => if addr = 0 then "<nil>" else "0x" ++ ⟨Nat.toDigits 16 addr⟩

structure logData where
  key : String
  value : Value
deriving DecidableEq, Repr

structure log where
  level : Level
  timestamp : Time
  data : List logData
deriving DecidableEq, Repr

/-- The Go type `LogOptions`, `func(*log)`. -/
abbrev LogOptions := log → log

def log.isZero (l : log) : Bool :=
  l.data.length == 0 || l.level == ""

def log.addMetadata (l : log) (k : String) (v : Value) : log :=
  if TrimSpace k ≠ "" then { l with data := l.data ++ [{ key := k, value := v }] } else l

def With (key : String) (value : Value) : LogOptions :=
  fun lg => lg.addMetadata key value

def WithMessage (msg : String) : LogOptions :=
  fun lg => lg.addMetadata "message" (.str msg)

def log.simple (l : log) (formatter : TimeFormatter) : String :=
  let message := formatter l.timestamp "[2006-01-02 15:04:05 Z0700] "
  let message := message ++ (pad5 l.level ++ " ")
  l.data.foldl (fun m item => m ++ (item.key ++ ": \"" ++ fmtV item.value ++ "\" ")) message

/-- The closure `addItem` of `structured`: one more field on `result`. -/
def addItem (result : List String) (k : String) (encoded : String) : List String :=
  if result.length > 0 then result ++ [" \"" ++ k ++ "\": " ++ encoded]
  else result ++ ["\"" ++ k ++ "\": " ++ encoded]

def log.structured (l : log) (formatter : TimeFormatter) : String :=
  let result : List String := []
  let result := addItem result "lvl" (jsonString l.level)
  let result := addItem result "ts" (intRepr l.timestamp.Unix)
  let result := addItem result "dt" (jsonString (formatter l.timestamp "2006-01-02 15:04:05 Z0700"))
  let result := l.data.foldl (fun r item => addItem r item.key (marshalText item.value)) result
  "\x7b " ++ Join result "," ++ " \x7d"

/-! ## The operating system seen by the worker -/

/-- An open file: its descriptor and the path it was opened on. -/
structure Handle where
  fd : Nat
  path : String
deriving DecidableEq, Repr

/-- The outcomes the environment chooses: whether the system call number `n`,
an `os.OpenFile` of the path, succeeds; whether the system call number `n`, a
write, fails (`some k`: the error is reported after `k` characters have been
written); and whether `wg.Wait()` in `Sync` returns as soon as the worker has
called `wg.Done()`, before the worker's deferred `closeFile()` has run. -/
structure Env where
  openOk : Nat → String → Bool
  writeErr : Nat → Option Nat
  waitEarly : Bool

/-- The environment in which no open and no write fails. -/
def Env.reliable : Env :=
  { openOk := fun _ _ => true, writeErr := fun _ => none, waitEarly := false }

/-- The file system and the standard output: the contents of every file
(`none`: the file does not exist), the handles that are open, the next free
descriptor, the number of system calls made so far and the events printed. -/
structure OS where
  files : String → Option String
  opened : List Handle
  nextFd : Nat
  clock : Nat
  console : List log

/-- `f.Close()`. -/
def OS.close (os : OS) (h : Handle) : OS :=
  { os with opened := os.opened.erase h, clock := os.clock + 1 }

/-- Append `data` to the file at path `p`. -/
def OS.append (os : OS) (p : String) (data : String) : String → Option String :=
  fun q => if q = p then some ((os.files p).getD "" ++ data) else os.files q

/-- `os.OpenFile(p, os.O_APPEND|os.O_CREATE|os.O_WRONLY, 0644)`: on success
the file exists afterwards and a fresh handle on it is open. -/
def OS.openFile (env : Env) (os : OS) (p : String) : OS × Option Handle :=
  if env.openOk os.clock p then
    let h : Handle := { fd := os.nextFd, path := p }
    ({ os with files := os.append p "", opened := h :: os.opened,
               nextFd := os.nextFd + 1, clock := os.clock + 1 }, some h)
  else ({ os with clock := os.clock + 1 }, none)

/-- `f.WriteString(data)`; the boolean is `err == nil`. A write on a handle
that is not open fails and writes nothing. -/
def OS.writeString (env : Env) (os : OS) (h : Handle) (data : String) : OS × Bool :=
  if h ∈ os.opened then
    match env.writeErr os.clock with
    | none => ({ os with files := os.append h.path data, clock := os.clock + 1 }, true)
    | some k =>
      ({ os with files := os.append h.path ⟨data.data.take k⟩, clock := os.clock + 1 }, false)
  else ({ os with clock := os.clock + 1 }, false)

/-- `log.print`: the event is rendered on the standard output. -/
def OS.print (os : OS) (lg : log) : OS :=
  { os with console := os.console ++ [lg] }

/-! ## logger.go -/

/-- The struct `logger`. `channel` holds the events sent and not yet received
by the worker, oldest first, and `closed` tells whether `close(l.channel)` has
run; `exited` tells whether the worker has called `wg.Done()`. The field
`prefix` of the source is `pfx`. -/
structure logger where
  channel : List log
  closed : Bool
  flushed : Bool
  exited : Bool
  path : String
  file : Option Handle
  dev : Bool
  simple : Bool
  silent : Bool
  root : String
  pfx : String
  ext : String
  layout : String
  formatter : TimeFormatter
  os : OS

/-- The options of a call are applied in order to a log with no data. -/
def logger.newLog (_l : logger) (now : Time) (level : Level) (opts : List LogOptions) : log :=
  opts.foldl (fun lg opt => opt lg) { level := level, timestamp := now, data := [] }

/-- The statement `l.channel <- log`; `none` is the run-time panic of a send on
a closed channel. A send that finds the buffer full waits for the worker; the
result is the state once the send has completed. -/
def logger.send (l : logger) (lg : log) : Option logger :=
  if l.closed then none else some { l with channel := l.channel ++ [lg] }

def logger.queueLog (l : logger) (now : Time) (level : Level) (opts : List LogOptions) :
    Option logger :=
  let lg := l.newLog now level opts
  if lg.isZero then some l else l.send lg

def logger.Debug (l : logger) (now : Time) (opts : List LogOptions) : Option logger :=
  if l.flushed || !l.dev then some l else l.queueLog now levelDebug opts

def logger.Info (l : logger) (now : Time) (opts : List LogOptions) : Option logger :=
  if l.flushed then some l else l.queueLog now levelInfo opts

def logger.Warn (l : logger) (now : Time) (opts : List LogOptions) : Option logger :=
  if l.flushed then some l else l.queueLog now levelWarn opts

def logger.Error (l : logger) (now : Time) (opts : List LogOptions) : Option logger :=
  if l.flushed then some l else l.queueLog now levelError opts

def logger.Panic (l : logger) (now : Time) (opts : List LogOptions) : Option logger :=
  if l.flushed then some l else l.queueLog now levelPanic opts

def logger.filePath (l : logger) (ts : Time) : String :=
  let name := l.pfx ++ l.formatter ts l.layout
  if name = "" then ""
  else
    let ext := TrimLeft l.ext "."
    let name := if ext ≠ "" then name ++ ("." ++ ext) else name
    pathJoin l.root name

def logger.openFile (env : Env) (l : logger) (filePath : String) : logger :=
  if filePath = "" ∨ (l.path = filePath ∧ l.file ≠ none) then l
  else
    let l :=
      match l.file with
      | some f => if l.path ≠ filePath then { l with os := l.os.close f, file := none } else l
      | none => l
    match l.os.openFile env filePath with
    | (os, none) => { l with os := os, path := "", file := none }
    | (os, some f) => { l with os := os, path := filePath, file := some f }

def logger.closeFile (l : logger) : logger :=
  match l.file with
  | some f => { l with os := l.os.close f }
  | none => l

/-- One iteration of the loop of `run`, for the event `lg` just received. -/
def logger.runStep (env : Env) (l : logger) (lg : log) : logger :=
  let filePath := l.filePath lg.timestamp
  if filePath = "" then l
  else
    let message := if l.simple then lg.simple l.formatter else lg.structured l.formatter
    if message = "" then l
    else
      let l := if l.dev && !l.silent then { l with os := l.os.print lg } else l
      let l := l.openFile env filePath
      match l.file with
      | none => l
      | some f =>
        match l.os.writeString env f (message ++ "\n") with
        | (os, true) => { l with os := os }
        | (os, false) => { l with os := os.close f, file := none, path := "" }

/-- The loop `for log := range l.channel` once the channel is closed: the
pending events are received oldest first. -/
def logger.runLoop (env : Env) : List log → logger → logger
  | [], l => l
  | lg :: rest, l => logger.runLoop env rest (({ l with channel := rest }).runStep env lg)

/-- The worker `run` from the moment the channel is closed: the loop, then the
deferred calls `wg.Done()` and `closeFile()` in that order. -/
def logger.run (env : Env) (l : logger) : logger :=
  let l := logger.runLoop env l.channel l
  let l := { l with exited := true }
  l.closeFile

/-- The worker from the moment the channel is closed up to its `wg.Done()`:
the loop, then the first of the deferred calls to run. -/
def logger.runToDone (env : Env) (l : logger) : logger :=
  let l := logger.runLoop env l.channel l
  { l with exited := true }

/-- `Sync`: `none` is the run-time panic of closing a closed channel.
`wg.Wait()` returns once the worker has called `wg.Done()`; the deferred
`closeFile()` of the worker runs after `wg.Done()`, so `Sync` returns either
before it (the handle is still open) or after it, as the environment has it. -/
def logger.Sync (env : Env) (l : logger) : Option logger :=
  if l.flushed = false then
    let l := { l with flushed := true }
    if l.closed then none
    else if env.waitEarly then some (({ l with closed := true }).runToDone env)
    else some (({ l with closed := true }).run env)
  else some l

/-- The five level methods. -/
inductive Method where
  | Debug | Info | Warn | Error | Panic
deriving DecidableEq, Repr

/-- The level a method logs at. -/
def Method.level : Method → Level
  | .Debug => levelDebug
  | .Info => levelInfo
  | .Warn => levelWarn
  | .Error => levelError
  | .Panic => levelPanic

/-- A call of a level method. -/
def logger.call (l : logger) (m : Method) (now : Time) (opts : List LogOptions) : Option logger :=
  match m with
  | .Debug => l.Debug now opts
  | .Info => l.Info now opts
  | .Warn => l.Warn now opts
  | .Error => l.Error now opts
  | .Panic => l.Panic now opts

/-- A call on the producer-facing interface `Logger`. -/
inductive Op where
  | level (m : Method) (now : Time) (opts : List LogOptions) : Op
  | sync : Op

def logger.exec (env : Env) (l : logger) : Op → Option logger
  | .level m now opts => l.call m now opts
  | .sync => l.Sync env

/-- A sequence of calls, one after the other; a panic ends it. -/
def logger.execAll (env : Env) : List Op → logger → Option logger
  | [], l => some l
  | op :: ops, l => (l.exec env op).bind (logger.execAll env ops)

/-- The options a caller outside the package can build. -/
inductive Opt where
  | withKV (key : String) (value : Value) : Opt
  | withMessage (msg : String) : Opt
deriving DecidableEq, Repr

/-- The `LogOptions` an `Opt` stands for. -/
def Opt.fn : Opt → LogOptions
  | .withKV k v => With k v
  | .withMessage m => WithMessage m

/-- The logger `LoggerBuilder.Logger` returns for a builder with the given
fields, on the operating system `os`. -/
def newLogger (dev simple silent : Bool) (root pfx ext layout : String)
    (formatter : TimeFormatter) (os : OS) : logger :=
  { channel := [], closed := false, flushed := false, exited := false, path := "", file := none,
    dev := dev, simple := simple, silent := silent, root := root, pfx := pfx, ext := ext,
    layout := layout, formatter := formatter, os := os }

/-- An operating system with no file and no open handle. -/
def OS.empty : OS := { files := fun _ => none, opened := [], nextFd := 3, clock := 0, console := [] }

/-! ## Concurrent calls

The calls above run a method of `logger.go` from its first statement to its
last without interruption. Below, every goroutine advances by one atomic
action at a time and a schedule chooses who moves: a load or a
compare-and-swap of `flushed`, the construction of the event, a channel send,
`close`, `wg.Wait()`, and for the worker one iteration of its loop,
`wg.Done()` and `closeFile()`. -/

/-- Where a call of a level method or of `Sync` stands. -/
inductive PC where
  | start : PC
  | passed : PC
  | sending (lg : log) : PC
  | closing : PC
  | waiting : PC
  | returned : PC
  | panicked : PC
deriving DecidableEq, Repr

/-- Where the worker goroutine stands. -/
inductive WorkerPC where
  | looping : WorkerPC
  | signalled : WorkerPC
  | finished : WorkerPC
deriving DecidableEq, Repr

/-- A goroutine of the program calling the logger once. -/
structure Thread where
  call : Op
  pc : PC

/-- The logger shared by the calling goroutines and the worker; `cap` is the
capacity of the channel and `crashed` tells whether a goroutine has panicked,
which ends the process. -/
structure System where
  l : logger
  cap : Nat
  worker : WorkerPC
  threads : List Thread
  crashed : Bool

/-- The thread `i` moved to `pc`, the logger becoming `l`. -/
def System.move (s : System) (i : Nat) (t : Thread) (pc : PC) (l : logger) : System :=
  { s with l := l, threads := s.threads.set i { t with pc := pc } }

/-- The thread `i` panics. -/
def System.panic (s : System) (i : Nat) (t : Thread) : System :=
  { s with threads := s.threads.set i { t with pc := PC.panicked }, crashed := true }

/-- Whether a send can complete: the buffer has room, or the channel is
unbuffered and the worker stands at its receive with nothing handed over. -/
def System.room (s : System) : Bool :=
  decide (s.l.channel.length < s.cap) ||
    (s.cap == 0 && s.l.channel.isEmpty && s.worker == WorkerPC.looping)

/-- One atomic action of the thread `i`; a thread that cannot move (blocked,
returned) leaves the system as it is, and so does every thread once the
process has crashed. -/
def System.stepThread (s : System) (i : Nat) : System :=
  if s.crashed then s
  else
    match s.threads[i]? with
    | none => s
    | some t =>
      match t.call, t.pc with
      | .level m _ _, .start =>
        if s.l.flushed || (m == Method.Debug && !s.l.dev) then s.move i t PC.returned s.l
        else s.move i t PC.passed s.l
      | .level m now opts, .passed =>
        let lg := s.l.newLog now m.level opts
        if lg.isZero then s.move i t PC.returned s.l else s.move i t (PC.sending lg) s.l
      | .level _ _ _, .sending lg =>
        if s.l.closed then s.panic i t
        else if s.room then s.move i t PC.returned { s.l with channel := s.l.channel ++ [lg] }
        else s
      | .sync, .start =>
        if s.l.flushed = false then s.move i t PC.closing { s.l with flushed := true }
        else s.move i t PC.returned s.l
      | .sync, .closing =>
        if s.l.closed then s.panic i t
        else s.move i t PC.waiting { s.l with closed := true }
      | .sync, .waiting =>
        if s.l.exited then s.move i t PC.returned s.l else s
      | _, _ => s

/-- One atomic action of the worker: an iteration on the oldest pending
event; when the channel is closed and drained, `wg.Done()`; then
`closeFile()`. -/
def System.stepWorker (env : Env) (s : System) : System :=
  if s.crashed then s
  else
    match s.worker with
    | .looping =>
      match s.l.channel with
      | lg :: rest => { s with l := ({ s.l with channel := rest }).runStep env lg }
      | [] =>
        if s.l.closed then { s with worker := WorkerPC.signalled, l := { s.l with exited := true } }
        else s
    | .signalled => { s with worker := WorkerPC.finished, l := s.l.closeFile }
    | .finished => s

/-- Who moves next. -/
inductive Turn where
  | thread (i : Nat) : Turn
  | worker : Turn
deriving DecidableEq, Repr

def System.step (env : Env) (s : System) : Turn → System
  | .thread i => s.stepThread i
  | .worker => s.stepWorker env

/-- The system after a schedule. -/
def System.runSchedule (env : Env) (s : System) (sched : List Turn) : System :=
  sched.foldl (System.step env) s

/-- The program points of the threads. -/
def System.pcs (s : System) : List PC := s.threads.map Thread.pc

/-- A fresh logger and the given calls, none begun. -/
def System.init (l : logger) (cap : Nat) (calls : List Op) : System :=
  { l := l, cap := cap, worker := WorkerPC.looping,
    threads := calls.map (fun c => { call := c, pc := PC.start }), crashed := false }

/-- Whether the thread runs `Sync`. -/
def Thread.isSync (t : Thread) : Bool :=
  match t.call with
  | .sync => true
  | .level _ _ _ => false

/-- What the compare-and-swap of `Sync` maintains: the channel is closed only
once the flag is flushed; a thread about to close the channel has set the
flag and finds the channel open; at most one thread is about to close; and no
call of `Sync` has panicked. -/
def System.closeInv (s : System) : Prop :=
  (s.l.closed = true → s.l.flushed = true) ∧
  (∀ (i : Nat) (t : Thread), s.threads[i]? = some t → t.pc = PC.closing →
    s.l.flushed = true ∧ s.l.closed = false) ∧
  (∀ (i j : Nat) (ti tj : Thread), s.threads[i]? = some ti → s.threads[j]? = some tj →
    ti.pc = PC.closing → tj.pc = PC.closing → i = j) ∧
  (∀ (i : Nat) (t : Thread), s.threads[i]? = some t → t.isSync = true → t.pc ≠ PC.panicked)

/-- The events whose send completes at a turn: the thread stands at its send,
the channel is open and has room. -/
def System.sends (s : System) : Turn → List log
  | .worker => []
  | .thread i =>
    if s.crashed then []
    else
      match s.threads[i]? with
      | none => []
      | some t =>
        match t.call, t.pc with
        | .level _ _ _, .sending lg => if s.l.closed then [] else if s.room then [lg] else []
        | _, _ => []

/-- The events sent along a schedule, in the order of their sends. -/
def System.sentAlong (env : Env) : System → List Turn → List log
  | _, [] => []
  | s, turn :: rest => s.sends turn ++ System.sentAlong env (s.step env turn) rest

/-- The events enqueued on a handle under a schedule of calls: those pending at
the start, then those sent along the schedule, oldest first. -/
def System.enqueued (env : Env) (l : logger) (cap : Nat) (calls : List Op)
    (sched : List Turn) : List log :=
  l.channel ++ System.sentAlong env (System.init l cap calls) sched

/-! ## Example inputs -/

/-- A custom formatter: the day number of the instant, whatever the layout. -/
def dayFormatter : TimeFormatter := fun t _ => "day" ++ intRepr (t.sec / 86400)

/-- A custom formatter that degenerates to the empty string. -/
def emptyFormatter : TimeFormatter := fun _ _ => ""

/-- A logger as the builder returns it: development mode, structured, silent,
root `./logs`, `prefix` `app-`, extension `.log`. -/
def demoLogger : logger :=
  newLogger true false true "./logs" "app-" ".log" "2006-01-02" dayFormatter OS.empty

def demoTime : Time := { sec := 5, nsec := 0 }

def demoOpts : List Opt := [Opt.withKV "user" (Value.str "alice"), Opt.withMessage "login"]

def demoEvent1 : log :=
  { level := levelInfo, timestamp := demoTime, data := [{ key := "seq", value := Value.int 1 }] }

def demoEvent2 : log :=
  { level := levelWarn, timestamp := { sec := 9, nsec := 0 },
    data := [{ key := "seq", value := Value.int 2 }] }

/-- The logger with two events pending. -/
def demoPending : logger := { demoLogger with channel := [demoEvent1, demoEvent2] }

/-- A logger whose formatter gives the empty string, with a `prefix`. -/
def prefixedLogger : logger :=
  newLogger true false true "logs" "app" "" "2006-01-02" emptyFormatter OS.empty

/-- A logger whose formatter gives the empty string, without a `prefix`. -/
def bareLogger : logger :=
  newLogger true false true "logs" "" "log" "2006-01-02" emptyFormatter OS.empty

/-- The logger after `Sync` on `demoPending`. -/
def demoFlushed : logger :=
  ({ demoPending with flushed := true, closed := true } : logger).run Env.reliable

/-- The logger holding an open handle on `logs/old`. -/
def demoOpen : logger := demoLogger.openFile Env.reliable "logs/old"

/-- Two goroutines: one calls `Info` with metadata, the other calls `Sync`. -/
def raceSystem : System :=
  System.init demoLogger 10 [Op.level Method.Info demoTime (demoOpts.map Opt.fn), Op.sync]

/-- The schedule of the race: `Info` loads the flag and finds it open, `Sync`
swaps the flag and closes the channel, `Info` builds its event and sends it. -/
def raceSchedule : List Turn :=
  [Turn.thread 0, Turn.thread 1, Turn.thread 1, Turn.thread 0, Turn.thread 0]

/-- An event whose key holds a double quote. -/
def quoteKeyEvent : log :=
  { level := levelInfo, timestamp := demoTime, data := [{ key := "a\"b", value := Value.int 1 }] }

/-- An event whose key holds a line feed. -/
def newlineKeyEvent : log :=
  { level := levelInfo, timestamp := demoTime, data := [{ key := "a\nb", value := Value.int 1 }] }

/-- An event with a value that `json.Marshal` rejects, a channel. -/
def chanEvent : log :=
  { level := levelInfo, timestamp := demoTime,
    data := [{ key := "user", value := Value.str "alice" }, { key := "f", value := Value.chan 1 }] }

/-- Three goroutines: `Info` and `Warn` with metadata, and `Sync`. -/
def fifoCalls : List Op :=
  [Op.level Method.Info demoTime (demoOpts.map Opt.fn),
   Op.level Method.Warn { sec := 9, nsec := 0 }
     ([Opt.withKV "seq" (Value.int 2)].map Opt.fn),
   Op.sync]

/-- A schedule on a channel of capacity one: `Info` sends; `Warn` finds the
buffer full and waits; the worker writes the first event; `Warn` sends; `Sync`
swaps the flag and closes; the worker writes the second event and signals;
`Sync` returns; the worker closes the file. -/
def fifoSchedule : List Turn :=
  [Turn.thread 0, Turn.thread 0, Turn.thread 0, Turn.thread 1, Turn.thread 1, Turn.thread 1,
   Turn.worker, Turn.thread 1, Turn.thread 2, Turn.thread 2, Turn.worker, Turn.worker,
   Turn.thread 2, Turn.worker]

/-- A logger in simple mode. -/
def simpleLogger : logger :=
  newLogger true true true "./logs" "app-" ".log" "2006-01-02" dayFormatter OS.empty

/-- One option: a message of two lines. -/
def twoLineOpts : List Opt := [Opt.withMessage "first\nsecond"]

/-- The event `Info(WithMessage("first\nsecond"))` builds at `demoTime`. -/
def twoLineEvent : log :=
  { level := levelInfo, timestamp := demoTime,
    data := [{ key := "message", value := Value.str "first\nsecond" }] }

/-! ## The claims' own words, as definitions -/

/-- The metadata the options stand for: walking them in order, each
`With(k, v)` whose key is non-empty after trimming gives the entry `(k, v)` and
each `WithMessage(m)` gives the entry `("message", m)`. -/
def expectedMetadata : List Opt → List logData
  | [] => []
  | .withKV k v :: rest =>
    if TrimSpace k ≠ "" then { key := k, value := v } :: expectedMetadata rest
    else expectedMetadata rest
  | .withMessage m :: rest => { key := "message", value := .str m } :: expectedMetadata rest

/-- Whether one option attaches a metadata entry. -/
def Opt.attaches : Opt → Bool
  | .withKV k _ => decide (TrimSpace k ≠ "")
  | .withMessage _ => true

/-- The extension with all of its leading dots removed. -/
def stripDots : List Char → List Char
  | [] => []
  | c :: cs => if c = '.' then stripDots cs else c :: cs

/-- The rotation path in the words of the specification: the root joined with
the name, which is the `prefix`, the formatted timestamp and, when the
extension without its leading dots is non-empty, a dot and that extension. -/
def specPath (root pfx ext formatted : String) : String :=
  let e : String := ⟨stripDots ext.data⟩
  pathJoin root (if e = "" then pfx ++ formatted else pfx ++ formatted ++ "." ++ e)

/-- The line the worker writes for an event, without the newline. -/
def logger.rendering (l : logger) (lg : log) : String :=
  if l.simple then lg.simple l.formatter else lg.structured l.formatter

/-- The sink owns what it remembers: a handle it holds is open and was opened
on the remembered path. -/
def logger.sinkOk (l : logger) : Prop :=
  ∀ f, l.file = some f → f ∈ l.os.opened ∧ f.path = l.path

/-- The console echo of `run`: in development mode, unless silent. -/
def logger.echo (l : logger) (lg : log) : logger :=
  if l.dev && !l.silent then { l with os := l.os.print lg } else l

/-- The write of `run`: nothing without a handle; a failed write closes and
forgets the handle. -/
def logger.writeLine (env : Env) (l : logger) (data : String) : logger :=
  match l.file with
  | none => l
  | some f =>
    match l.os.writeString env f data with
    | (os, true) => { l with os := os }
    | (os, false) => { l with os := os.close f, file := none, path := "" }

/-- The logger with another sink: operating system, remembered path, handle. -/
def logger.withSink (l : logger) (os : OS) (path : String) (file : Option Handle) : logger :=
  { l with os := os, path := path, file := file }

/-- The text of a file made of the given lines, each ended by a newline. -/
def fileText : List String → String
  | [] => ""
  | line :: rest => line ++ "\n" ++ fileText rest

/-- The lines of a text, `cur` being the current line read so far, last
character first: a line ends at each line feed, and what follows the last line
feed is a line when it is not empty. -/
def linesFrom : List Char → List Char → List String
  | [], cur => if cur = [] then [] else [⟨cur.reverse⟩]
  | c :: cs, cur => if c = '\n' then ⟨cur.reverse⟩ :: linesFrom cs [] else linesFrom cs (c :: cur)

/-- The lines of a text. -/
def linesOf (text : String) : List String := linesFrom text.data []

/-- The lines of the file `p`. -/
def fileLinesAt (p : String) (l : logger) : List String := linesOf ((l.os.files p).getD "")

/-- The second logger has the configuration of the first. -/
def logger.sameConfig (l l' : logger) : Prop :=
  l'.simple = l.simple ∧ l'.formatter = l.formatter ∧ l'.root = l.root ∧ l'.pfx = l.pfx ∧
  l'.ext = l.ext ∧ l'.layout = l.layout

/-- What the worker maintains while events bound for `p` are sent and written,
`l0` being the logger at the start and `sent` the events sent since: the sink
is consistent while the worker loops; the configuration is that of `l0`; the
text of `p` followed by the lines still pending is the text at the start
followed by the lines of every event enqueued; no other file has changed;
every pending event is bound for `p`; and once the worker has left its loop
the channel is closed and empty. -/
def System.fifoInv (l0 : logger) (p : String) (sent : List log) (s : System) : Prop :=
  (s.worker = WorkerPC.looping → s.l.sinkOk) ∧
  l0.sameConfig s.l ∧
  (s.l.os.files p).getD "" ++ fileText (s.l.channel.map l0.rendering)
    = (l0.os.files p).getD "" ++ fileText ((l0.channel ++ sent).map l0.rendering) ∧
  (∀ q, q ≠ p → s.l.os.files q = l0.os.files q) ∧
  (∀ e ∈ s.l.channel, l0.filePath e.timestamp = p) ∧
  (s.worker ≠ WorkerPC.looping → s.l.channel = [] ∧ s.l.closed = true)

/-! ## Theorems -/

/-! ### Event construction -/

theorem addMetadata_level (lg : log) (k : String) (v : Value) :
    (lg.addMetadata k v).level = lg.level := by
  unfold log.addMetadata
  split <;> rfl

theorem addMetadata_timestamp (lg : log) (k : String) (v : Value) :
    (lg.addMetadata k v).timestamp = lg.timestamp := by
  unfold log.addMetadata
  split <;> rfl

theorem foldl_opts (opts : List Opt) (lg : log) :
    (opts.map Opt.fn).foldl (fun acc opt => opt acc) lg
      = { lg with data := lg.data ++ expectedMetadata opts } := by
  induction opts generalizing lg with
  | nil => simp [expectedMetadata]
  | cons o rest ih =>
    cases o with
    | withKV k v =>
      simp only [List.map_cons, List.foldl_cons, Opt.fn, With, expectedMetadata, ih]
      unfold log.addMetadata
      by_cases hk : TrimSpace k ≠ "" <;> simp [hk]
    | withMessage m =>
      have hm : TrimSpace "message" ≠ "" := by decide
      simp only [List.map_cons, List.foldl_cons, Opt.fn, WithMessage, expectedMetadata, ih]
      unfold log.addMetadata
      simp [hm]

theorem newLog_eq (l : logger) (now : Time) (level : Level) (opts : List Opt) :
    l.newLog now level (opts.map Opt.fn)
      = { level := level, timestamp := now, data := expectedMetadata opts } := by
  unfold logger.newLog
  rw [foldl_opts]
  simp

theorem expectedMetadata_eq_nil (opts : List Opt) :
    expectedMetadata opts = [] ↔ opts.any Opt.attaches = false := by
  induction opts with
  | nil => simp [expectedMetadata]
  | cons o rest ih =>
    cases o with
    | withKV k v =>
      by_cases hk : TrimSpace k ≠ "" <;> simp [expectedMetadata, Opt.attaches, hk, ih]
    | withMessage m => simp [expectedMetadata, Opt.attaches]

/-- C8. The metadata of the event `newLog` builds from options made with
`With` and `WithMessage` is the list obtained by walking the options in order,
keeping `(k, v)` for each `With(k, v)` whose key is non-empty after trimming
and `("message", m)` for each `WithMessage(m)`; the level and the timestamp
are those of the call. -/
theorem newLog_metadata (l : logger) (now : Time) (level : Level) (opts : List Opt) :
    (l.newLog now level (opts.map Opt.fn)).data = expectedMetadata opts ∧
    (l.newLog now level (opts.map Opt.fn)).level = level ∧
    (l.newLog now level (opts.map Opt.fn)).timestamp = now := by
  rw [newLog_eq]
  exact ⟨rfl, rfl, rfl⟩

/-! ### Level gating -/

theorem level_ne_empty (m : Method) : (m.level == "") = false := by
  cases m <;> decide

theorem queueLog_eq (l : logger) (hc : l.closed = false) (m : Method) (now : Time)
    (opts : List Opt) :
    l.queueLog now m.level (opts.map Opt.fn) =
      some (if opts.any Opt.attaches = true
            then { l with channel := l.channel ++
                    [{ level := m.level, timestamp := now, data := expectedMetadata opts }] }
            else l) := by
  unfold logger.queueLog
  simp only [newLog_eq, log.isZero, level_ne_empty, Bool.or_false]
  by_cases ha : opts.any Opt.attaches = true
  · have hne : expectedMetadata opts ≠ [] := by
      intro h
      rw [expectedMetadata_eq_nil] at h
      rw [h] at ha
      exact Bool.false_ne_true ha
    have hlen : ((expectedMetadata opts).length == 0) = false := by
      cases hx : expectedMetadata opts with
      | nil => exact absurd hx hne
      | cons a b => rfl
    simp [hlen, ha, logger.send, hc]
  · have hnil : expectedMetadata opts = [] := by
      rw [expectedMetadata_eq_nil]
      simpa using ha
    simp [hnil, ha]

theorem call_eq (l : logger) (m : Method) (now : Time) (opts : List Opt)
    (hopen : l.flushed = false) (hch : l.closed = true → l.flushed = true) :
    l.call m now (opts.map Opt.fn) =
      some (if opts.any Opt.attaches = true ∧ (m = Method.Debug → l.dev = true)
            then { l with channel := l.channel ++
                    [{ level := m.level, timestamp := now, data := expectedMetadata opts }] }
            else l) := by
  have hc : l.closed = false := by
    cases h : l.closed with
    | false => rfl
    | true => rw [hch h] at hopen; exact absurd hopen (by decide)
  cases m with
  | Debug =>
    by_cases hd : l.dev = true
    · have := queueLog_eq l hc Method.Debug now opts
      simp only [Method.level] at this
      simp [logger.call, logger.Debug, hopen, hd, this, Method.level]
    · simp [logger.call, logger.Debug, hopen, hd]
  | Info =>
    have := queueLog_eq l hc Method.Info now opts
    simp only [Method.level] at this
    simp [logger.call, logger.Info, hopen, this, Method.level]
  | Warn =>
    have := queueLog_eq l hc Method.Warn now opts
    simp only [Method.level] at this
    simp [logger.call, logger.Warn, hopen, this, Method.level]
  | Error =>
    have := queueLog_eq l hc Method.Error now opts
    simp only [Method.level] at this
    simp [logger.call, logger.Error, hopen, this, Method.level]
  | Panic =>
    have := queueLog_eq l hc Method.Panic now opts
    simp only [Method.level] at this
    simp [logger.call, logger.Panic, hopen, this, Method.level]

/-- C1. On a logger whose lifecycle flag is open, a call of a level method `m`
with options built from `With` and `WithMessage` appends exactly one event, of
level `m.level`, stamped `now` and carrying the metadata of the options, to
the tail of the queue when some option attaches an entry and, for `Debug`,
development mode is on; otherwise it leaves the logger as it is. So a call
with no option, or with only options that attach nothing, enqueues nothing,
and neither does `Debug` in production mode. -/
theorem level_gating (l : logger) (m : Method) (now : Time) (opts : List Opt)
    (hopen : l.flushed = false) (hch : l.closed = true → l.flushed = true) :
    l.call m now (opts.map Opt.fn) =
      some (if opts.any Opt.attaches = true ∧ (m = Method.Debug → l.dev = true)
            then { l with channel := l.channel ++
                    [{ level := m.level, timestamp := now, data := expectedMetadata opts }] }
            else l) ∧
    l.call m now [] = some l ∧
    ((∀ o ∈ opts, o.attaches = false) → l.call m now (opts.map Opt.fn) = some l) ∧
    (l.dev = false → l.call Method.Debug now (opts.map Opt.fn) = some l) := by
  refine ⟨call_eq l m now opts hopen hch, ?_, ?_, ?_⟩
  · have := call_eq l m now [] hopen hch
    simpa using this
  · intro hall
    have hany : opts.any Opt.attaches = false := by
      rw [List.any_eq_false]
      intro o ho
      simp [hall o ho]
    rw [call_eq l m now opts hopen hch]
    simp [hany]
  · intro hd
    rw [call_eq l Method.Debug now opts hopen hch]
    simp [hd]

/-! ### Lifecycle -/

theorem call_flushed (l : logger) (m : Method) (now : Time) (opts : List LogOptions)
    (hf : l.flushed = true) : l.call m now opts = some l := by
  cases m <;>
    simp [logger.call, logger.Debug, logger.Info, logger.Warn, logger.Error, logger.Panic, hf]

theorem exec_flushed (env : Env) (l : logger) (op : Op) (hf : l.flushed = true) :
    l.exec env op = some l := by
  cases op with
  | level m now opts => exact call_flushed l m now opts hf
  | sync => simp [logger.exec, logger.Sync, hf]

theorem execAll_flushed (env : Env) (ops : List Op) (l : logger) (hf : l.flushed = true) :
    l.execAll env ops = some l := by
  induction ops with
  | nil => rfl
  | cons op rest ih => simp [logger.execAll, exec_flushed env l op hf, ih]

theorem runStep_eq (env : Env) (l : logger) (lg : log) :
    l.runStep env lg =
      if l.filePath lg.timestamp = "" then l
      else if l.rendering lg = "" then l
      else ((l.echo lg).openFile env (l.filePath lg.timestamp)).writeLine env
        (l.rendering lg ++ "\n") := rfl

theorem withSink_self (l : logger) : l = l.withSink l.os l.path l.file := rfl

theorem echo_shape (l : logger) (lg : log) :
    ∃ os, l.echo lg = l.withSink os l.path l.file := by
  unfold logger.echo
  split
  · exact ⟨_, rfl⟩
  · exact ⟨_, rfl⟩

theorem openFile_shape (env : Env) (l : logger) (p : String) :
    ∃ os path file, l.openFile env p = l.withSink os path file := by
  unfold logger.openFile
  split
  · exact ⟨_, _, _, rfl⟩
  · cases hfile : l.file with
    | none =>
      dsimp only
      split
      · exact ⟨_, _, _, rfl⟩
      · exact ⟨_, _, _, rfl⟩
    | some f =>
      dsimp only
      split
      · split
        · exact ⟨_, _, _, rfl⟩
        · exact ⟨_, _, _, rfl⟩
      · split
        · exact ⟨_, _, _, rfl⟩
        · exact ⟨_, _, _, rfl⟩

theorem writeLine_shape (env : Env) (l : logger) (data : String) :
    ∃ os path file, l.writeLine env data = l.withSink os path file := by
  unfold logger.writeLine
  split
  · exact ⟨_, _, _, rfl⟩
  · split
    · exact ⟨_, _, _, rfl⟩
    · exact ⟨_, _, _, rfl⟩

theorem closeFile_shape (l : logger) :
    ∃ os, l.closeFile = l.withSink os l.path l.file := by
  unfold logger.closeFile
  split
  · exact ⟨_, rfl⟩
  · exact ⟨_, rfl⟩

theorem runStep_shape (env : Env) (l : logger) (lg : log) :
    ∃ os path file, l.runStep env lg = l.withSink os path file := by
  rw [runStep_eq]
  split
  · exact ⟨_, _, _, rfl⟩
  · split
    · exact ⟨_, _, _, rfl⟩
    · obtain ⟨os1, h1⟩ := echo_shape l lg
      obtain ⟨os2, p2, f2, h2⟩ := openFile_shape env (l.echo lg) (l.filePath lg.timestamp)
      obtain ⟨os3, p3, f3, h3⟩ := writeLine_shape env
        ((l.echo lg).openFile env (l.filePath lg.timestamp)) (l.rendering lg ++ "\n")
      rw [h3, h2, h1]
      exact ⟨_, _, _, rfl⟩

theorem runLoop_shape (env : Env) (evs : List log) (l : logger) :
    ∃ os path file,
      logger.runLoop env evs l = ({ l with channel := [] }).withSink os path file ∨
      (evs = [] ∧ logger.runLoop env evs l = l) := by
  induction evs generalizing l with
  | nil => exact ⟨l.os, l.path, l.file, Or.inr ⟨rfl, rfl⟩⟩
  | cons e rest ih =>
    obtain ⟨os1, p1, f1, h1⟩ := runStep_shape env { l with channel := rest } e
    obtain ⟨os2, p2, f2, h2⟩ := ih (({ l with channel := rest }).runStep env e)
    refine ⟨(logger.runLoop env (e :: rest) l).os, (logger.runLoop env (e :: rest) l).path,
      (logger.runLoop env (e :: rest) l).file, Or.inl ?_⟩
    simp only [logger.runLoop]
    rcases h2 with h2 | ⟨hnil, h2⟩
    · rw [h2, h1]; rfl
    · rw [h2, h1, hnil]; rfl

theorem runLoop_flushed (env : Env) (evs : List log) (l : logger) :
    (logger.runLoop env evs l).flushed = l.flushed := by
  obtain ⟨os, p, f, h | ⟨_, h⟩⟩ := runLoop_shape env evs l
  · rw [h]; rfl
  · rw [h]

theorem closeFile_flushed (l : logger) : l.closeFile.flushed = l.flushed := by
  obtain ⟨os, h⟩ := closeFile_shape l
  rw [h]; rfl

theorem Sync_flushed (env : Env) (l l' : logger) (h : l.Sync env = some l') :
    l'.flushed = true := by
  unfold logger.Sync at h
  by_cases hf : l.flushed = false
  · simp only [hf, if_true] at h
    split at h
    · exact absurd h (by simp)
    · split at h
      · simp only [Option.some.injEq] at h
        rw [← h]
        simp [logger.runToDone, runLoop_flushed]
      · simp only [Option.some.injEq] at h
        rw [← h]
        simp [logger.run, closeFile_flushed, runLoop_flushed]
  · have hf' : l.flushed = true := by simpa using hf
    simp only [hf', Bool.true_eq_false, if_false, Option.some.injEq] at h
    rw [← h]
    exact hf'

theorem runLoop_closed (env : Env) (evs : List log) (l : logger) :
    (logger.runLoop env evs l).closed = l.closed := by
  obtain ⟨os, p, f, h | ⟨_, h⟩⟩ := runLoop_shape env evs l
  · rw [h]; rfl
  · rw [h]

theorem queueLog_flags (l l' : logger) (now : Time) (level : Level) (opts : List LogOptions)
    (h : l.queueLog now level opts = some l') :
    l'.closed = l.closed ∧ l'.flushed = l.flushed := by
  unfold logger.queueLog at h
  dsimp only at h
  split at h
  · simp only [Option.some.injEq] at h
    rw [← h]
    exact ⟨rfl, rfl⟩
  · unfold logger.send at h
    split at h
    · exact absurd h (by simp)
    · simp only [Option.some.injEq] at h
      rw [← h]
      exact ⟨rfl, rfl⟩

theorem call_flags (l l' : logger) (m : Method) (now : Time) (opts : List LogOptions)
    (h : l.call m now opts = some l') :
    l'.closed = l.closed ∧ l'.flushed = l.flushed := by
  cases m <;>
    simp only [logger.call, logger.Debug, logger.Info, logger.Warn, logger.Error,
      logger.Panic] at h <;>
    split at h <;>
    first
      | (simp only [Option.some.injEq] at h; rw [← h]; exact ⟨rfl, rfl⟩)
      | exact queueLog_flags l l' now _ opts h

/-- In every state a sequence of calls reaches, the channel is closed only
when the lifecycle flag is flushed. -/
theorem closed_flushed_exec (env : Env) (l l' : logger) (op : Op)
    (hinv : l.closed = true → l.flushed = true) (h : l.exec env op = some l') :
    l'.closed = true → l'.flushed = true := by
  cases op with
  | level m now opts =>
    obtain ⟨hc, hf⟩ := call_flags l l' m now opts h
    rw [hc, hf]
    exact hinv
  | sync =>
    intro _
    exact Sync_flushed env l l' h

theorem closed_flushed_execAll (env : Env) (ops : List Op) (l l' : logger)
    (hinv : l.closed = true → l.flushed = true) (h : l.execAll env ops = some l') :
    l'.closed = true → l'.flushed = true := by
  induction ops generalizing l with
  | nil =>
    simp only [logger.execAll, Option.some.injEq] at h
    rw [← h]
    exact hinv
  | cons op rest ih =>
    simp only [logger.execAll] at h
    cases hop : l.exec env op with
    | none => rw [hop] at h; exact absurd h (by simp)
    | some l1 =>
      rw [hop] at h
      exact ih l1 (closed_flushed_exec env l l1 op hinv hop) h

/-- C2. Once `Sync` has returned, the lifecycle flag is flushed, and every
later sequence of calls of `Debug`, `Info`, `Warn`, `Error`, `Panic` and
`Sync`, with any options and in any environment, returns and leaves the whole
logger state, the operating system included, as it was. -/
theorem flushed_inert (env : Env) (l l' : logger) (h : l.Sync env = some l') :
    l'.flushed = true ∧ ∀ (env' : Env) (ops : List Op), l'.execAll env' ops = some l' :=
  ⟨Sync_flushed env l l' h, fun env' ops => execAll_flushed env' ops l' (Sync_flushed env l l' h)⟩

/-! ### File sink -/

theorem openFile_reuse (env : Env) (l : logger) (p : String)
    (h : (∃ f, l.file = some f) ∧ l.path = p) : l.openFile env p = l := by
  obtain ⟨⟨f, hf⟩, hpath⟩ := h
  unfold logger.openFile
  simp [hf, hpath]

theorem openFile_switch (env : Env) (l : logger) (p : String) (hp : p ≠ "")
    (h : ¬((∃ f, l.file = some f) ∧ l.path = p)) :
    l.openFile env p =
      match l.closeFile.os.openFile env p with
      | (os, some f) => l.withSink os p (some f)
      | (os, none) => l.withSink os "" none := by
  unfold logger.openFile logger.closeFile
  cases hfile : l.file with
  | none =>
    simp only [hp, false_or, ne_eq, not_true_eq_false, and_false, if_false]
    cases hres : l.os.openFile env p with
    | mk os r => cases r <;> rfl
  | some f =>
    have hne : l.path ≠ p := by
      intro heq
      exact h ⟨⟨f, hfile⟩, heq⟩
    simp only [hp, false_or, hne, false_and, if_false, ne_eq, not_false_eq_true, if_true]
    cases hres : (l.os.close f).openFile env p with
    | mk os r => cases r <;> rfl

theorem OS_openFile_handle (env : Env) (os os' : OS) (p : String) (f : Handle)
    (h : os.openFile env p = (os', some f)) :
    f.path = p ∧ os'.opened = f :: os.opened := by
  unfold OS.openFile at h
  split at h
  · simp only [Prod.mk.injEq, Option.some.injEq] at h
    obtain ⟨h1, h2⟩ := h
    rw [← h1, ← h2]
    exact ⟨rfl, rfl⟩
  · simp at h

theorem OS_openFile_fail (env : Env) (os os' : OS) (p : String)
    (h : os.openFile env p = (os', none)) : os'.opened = os.opened := by
  unfold OS.openFile at h
  split at h
  · simp at h
  · simp only [Prod.mk.injEq, and_true] at h
    rw [← h]

theorem openFile_owned (env : Env) (l : logger) (p : String)
    (h : l.os.opened = l.file.toList) :
    (l.openFile env p).os.opened = (l.openFile env p).file.toList := by
  by_cases hp : p = ""
  · simp [logger.openFile, hp, h]
  · by_cases hr : (∃ f, l.file = some f) ∧ l.path = p
    · rw [openFile_reuse env l p hr]; exact h
    · rw [openFile_switch env l p hp hr]
      have hclosed : l.closeFile.os.opened = [] := by
        unfold logger.closeFile
        cases hfile : l.file with
        | none => simpa [hfile] using h
        | some f =>
          rw [hfile] at h
          simp [OS.close, h]
      cases hres : l.closeFile.os.openFile env p with
      | mk os r =>
        cases r with
        | none =>
          have := OS_openFile_fail env _ _ p hres
          simp [logger.withSink, this, hclosed]
        | some f =>
          have := (OS_openFile_handle env _ _ p f hres).2
          simp [logger.withSink, this, hclosed]

/-- C9. For a non-empty path `p`, `openFile(p)` leaves the logger unchanged
when a handle is open and the remembered path is `p`. Otherwise it closes the
handle the sink holds, if any, and opens `p` for append: on success the sink
remembers `p` and holds the handle just opened, which is a handle on `p`; on
failure it remembers the empty path and holds no handle. When the sink's
handle is the only open handle before the call, the same is true after it: at
most one handle is open and none is leaked. -/
theorem openFile_contract (env : Env) (l : logger) (p : String) (hp : p ≠ "") :
    ((∃ f, l.file = some f) ∧ l.path = p → l.openFile env p = l) ∧
    (¬((∃ f, l.file = some f) ∧ l.path = p) →
      l.openFile env p =
        match l.closeFile.os.openFile env p with
        | (os, some f) => l.withSink os p (some f)
        | (os, none) => l.withSink os "" none) ∧
    (∀ os f, l.closeFile.os.openFile env p = (os, some f) →
      f.path = p ∧ os.opened = f :: l.closeFile.os.opened) ∧
    (l.os.opened = l.file.toList →
      (l.openFile env p).os.opened = (l.openFile env p).file.toList ∧
      (l.openFile env p).os.opened.length ≤ 1) := by
  refine ⟨openFile_reuse env l p, openFile_switch env l p hp, ?_, ?_⟩
  · intro os f h
    exact OS_openFile_handle env _ _ p f h
  · intro h
    have := openFile_owned env l p h
    refine ⟨this, ?_⟩
    rw [this]
    cases (l.openFile env p).file <;> simp

/-! ### Rotation path -/

theorem dropWhile_dot (cs : List Char) :
    cs.dropWhile (fun c => (".".data).contains c) = stripDots cs := by
  induction cs with
  | nil => rfl
  | cons c rest ih =>
    by_cases hc : c = '.'
    · subst hc
      simp only [stripDots, if_true]
      rw [← ih]
      rfl
    · have hcont : (".".data).contains c = false := by
        show (['.'] : List Char).contains c = false
        simp [hc]
      simp [List.dropWhile, hcont, stripDots, hc]

theorem TrimLeft_dot (s : String) : TrimLeft s "." = ⟨stripDots s.data⟩ := by
  unfold TrimLeft
  rw [dropWhile_dot]

theorem stripDots_all (cs : List Char) (h : ∀ c ∈ cs, c = '.') : stripDots cs = [] := by
  induction cs with
  | nil => rfl
  | cons c rest ih =>
    have hc : c = '.' := h c (List.mem_cons_self _ _)
    have hrest : ∀ d ∈ rest, d = '.' := fun d hd => h d (List.mem_cons_of_mem _ hd)
    simp [stripDots, hc, ih hrest]

theorem filePath_eq_specPath (l : logger) (ts : Time)
    (h : l.pfx ++ l.formatter ts l.layout ≠ "") :
    l.filePath ts = specPath l.root l.pfx l.ext (l.formatter ts l.layout) := by
  unfold logger.filePath specPath
  simp only [h, if_false, TrimLeft_dot]
  by_cases he : (⟨stripDots l.ext.data⟩ : String) = ""
  · simp [he]
  · simp [he, String.append_assoc]

/-- C4. When `prefix + formatter(ts, layout)` is non-empty, `filePath(ts)` is
the root joined with that name followed by a dot and the extension without
its leading dots, when that is non-empty. Timestamps that format to the same
string give the same path, one more leading dot on the extension does not
change the path, and an extension made only of dots adds nothing. -/
theorem filePath_formula (l : logger) (ts : Time)
    (h : l.pfx ++ l.formatter ts l.layout ≠ "") :
    l.filePath ts = specPath l.root l.pfx l.ext (l.formatter ts l.layout) ∧
    (∀ ts', l.formatter ts' l.layout = l.formatter ts l.layout →
      l.filePath ts' = l.filePath ts) ∧
    ({ l with ext := "." ++ l.ext }).filePath ts = l.filePath ts ∧
    ((∀ c ∈ l.ext.data, c = '.') →
      l.filePath ts = pathJoin l.root (l.pfx ++ l.formatter ts l.layout)) := by
  refine ⟨filePath_eq_specPath l ts h, ?_, ?_, ?_⟩
  · intro ts' hts
    unfold logger.filePath
    rw [hts]
  · rw [filePath_eq_specPath l ts h,
      filePath_eq_specPath { l with ext := "." ++ l.ext } ts h]
    show specPath l.root l.pfx ("." ++ l.ext) _ = _
    unfold specPath
    have : stripDots ("." ++ l.ext).data = stripDots l.ext.data := by
      show stripDots ('.' :: l.ext.data) = _
      simp [stripDots]
    rw [this]
  · intro hdots
    rw [filePath_eq_specPath l ts h]
    unfold specPath
    rw [stripDots_all _ hdots]
    rfl

theorem filePath_empty_name (l : logger) (ts : Time)
    (h : l.pfx ++ l.formatter ts l.layout = "") : l.filePath ts = "" := by
  unfold logger.filePath
  simp [h]

/-- C5, as amended. An event for which `prefix + formatter(timestamp, layout)`
is the empty string is skipped by the worker: the iteration leaves the logger
and the operating system as they were, so no file is opened and no line is
written. -/
theorem empty_name_skipped (env : Env) (l : logger) (lg : log)
    (h : l.pfx ++ l.formatter lg.timestamp l.layout = "") :
    l.runStep env lg = l := by
  rw [runStep_eq, filePath_empty_name l lg.timestamp h]
  rfl

/-! ### Worker: first in, first out -/

theorem ne_empty_of_data {s : String} (h : s.data ≠ []) : s ≠ "" := by
  intro hs
  apply h
  rw [hs]

theorem append_ne_empty_left (a b : String) (h : a ≠ "") : a ++ b ≠ "" := by
  apply ne_empty_of_data
  rw [String.data_append]
  intro hab
  apply h
  have ha : a.data = [] := (List.append_eq_nil.mp hab).1
  exact String.ext ha

theorem structured_ne_empty (lg : log) (formatter : TimeFormatter) :
    lg.structured formatter ≠ "" := by
  unfold log.structured
  dsimp only
  apply append_ne_empty_left
  apply append_ne_empty_left
  decide

theorem foldl_append_ne_empty {α : Type} (f : α → String) (items : List α) (init : String)
    (h : init ≠ "") : items.foldl (fun m item => m ++ f item) init ≠ "" := by
  induction items generalizing init with
  | nil => exact h
  | cons a rest ih => exact ih _ (append_ne_empty_left _ _ h)

theorem simple_ne_empty (lg : log) (formatter : TimeFormatter) :
    lg.simple formatter ≠ "" := by
  unfold log.simple
  dsimp only
  apply foldl_append_ne_empty
  apply ne_empty_of_data
  simp [String.data_append]

theorem rendering_ne_empty (l : logger) (lg : log) : l.rendering lg ≠ "" := by
  unfold logger.rendering
  split
  · exact simple_ne_empty lg l.formatter
  · exact structured_ne_empty lg l.formatter

theorem append_append (os : OS) (p a b : String) :
    ({ os with files := os.append p a }).append p b = os.append p (a ++ b) := by
  funext q
  unfold OS.append
  by_cases hq : q = p
  · simp [hq, String.append_assoc]
  · simp [hq]

theorem sinkOk_newLogger (dev simple silent : Bool) (root pfx ext layout : String)
    (formatter : TimeFormatter) (os : OS) :
    (newLogger dev simple silent root pfx ext layout formatter os).sinkOk := by
  intro f hf
  simp [newLogger] at hf

theorem sinkOk_echo (l : logger) (lg : log) (h : l.sinkOk) : (l.echo lg).sinkOk := by
  unfold logger.echo
  split
  · exact h
  · exact h

theorem sinkOk_openFile (env : Env) (l : logger) (p : String) (h : l.sinkOk) :
    (l.openFile env p).sinkOk := by
  by_cases hp : p = ""
  · have : l.openFile env p = l := by simp [logger.openFile, hp]
    rw [this]; exact h
  · by_cases hr : (∃ f, l.file = some f) ∧ l.path = p
    · rw [openFile_reuse env l p hr]; exact h
    · rw [openFile_switch env l p hp hr]
      cases hres : l.closeFile.os.openFile env p with
      | mk os r =>
        cases r with
        | none =>
          intro f hf
          simp [logger.withSink] at hf
        | some g =>
          obtain ⟨hpath, hopened⟩ := OS_openFile_handle env _ _ p g hres
          intro f hf
          have hfg : g = f := by simpa [logger.withSink] using hf
          subst hfg
          refine ⟨?_, hpath⟩
          show g ∈ os.opened
          rw [hopened]
          exact List.mem_cons_self _ _

theorem sinkOk_writeLine (env : Env) (l : logger) (data : String) (h : l.sinkOk) :
    (l.writeLine env data).sinkOk := by
  unfold logger.writeLine
  cases hfile : l.file with
  | none => exact h
  | some f =>
    dsimp only
    have hopened : ∀ os b, l.os.writeString env f data = (os, b) → os.opened = l.os.opened := by
      intro os b hw
      unfold OS.writeString at hw
      split at hw
      · split at hw
        · simp only [Prod.mk.injEq] at hw
          rw [← hw.1]
        · simp only [Prod.mk.injEq] at hw
          rw [← hw.1]
      · simp only [Prod.mk.injEq] at hw
        rw [← hw.1]
    cases hw : l.os.writeString env f data with
    | mk os b =>
      cases b with
      | true =>
        intro g hg
        have hfg : f = g := Option.some.inj hg
        subst hfg
        obtain ⟨hmem, hpath⟩ := h f hfile
        refine ⟨?_, hpath⟩
        show f ∈ os.opened
        rw [hopened os true hw]
        exact hmem
      | false =>
        intro g hg
        exact absurd hg (by simp)

/-- The worker keeps its sink consistent, whatever fails. -/
theorem sinkOk_runStep (env : Env) (l : logger) (lg : log) (h : l.sinkOk) :
    (l.runStep env lg).sinkOk := by
  rw [runStep_eq]
  split
  · exact h
  · split
    · exact h
    · exact sinkOk_writeLine env _ _ (sinkOk_openFile env _ _ (sinkOk_echo l lg h))

/-- One iteration of the worker on an event bound for `p`, when nothing
fails: afterwards the sink holds an open handle on `p` and the rendering of the
event, with its newline, has been appended to the file `p`. -/
theorem runStep_writes (env : Env) (l : logger) (lg : log) (p : String)
    (hopen : ∀ n q, env.openOk n q = true) (hwrite : ∀ n, env.writeErr n = none)
    (hsink : l.sinkOk) (hp : p ≠ "") (hpath : l.filePath lg.timestamp = p) :
    ∃ os f, l.runStep env lg = l.withSink os p (some f) ∧ f ∈ os.opened ∧ f.path = p ∧
      os.files = l.os.append p (l.rendering lg ++ "\n") := by
  rw [runStep_eq, hpath]
  simp only [hp, rendering_ne_empty, if_false]
  obtain ⟨os1, h1, hfiles1, hopened1⟩ :
      ∃ os1, l.echo lg = l.withSink os1 l.path l.file ∧ os1.files = l.os.files ∧
        os1.opened = l.os.opened := by
    unfold logger.echo
    split
    · exact ⟨_, rfl, rfl, rfl⟩
    · exact ⟨_, rfl, rfl, rfl⟩
  rw [h1]
  by_cases hr : (∃ f, l.file = some f) ∧ l.path = p
  · obtain ⟨⟨f, hf⟩, hlp⟩ := hr
    have hmem := hsink f hf
    rw [openFile_reuse env (l.withSink os1 l.path l.file) p ⟨⟨f, hf⟩, hlp⟩]
    refine ⟨{ os1 with files := os1.append f.path (l.rendering lg ++ "\n"),
                       clock := os1.clock + 1 }, f, ?_, ?_, ?_, ?_⟩
    · unfold logger.writeLine OS.writeString
      simp [logger.withSink, hf, hopened1, hmem.1, hwrite, hlp]
    · simpa [hopened1] using hmem.1
    · rw [hmem.2, hlp]
    · show os1.append f.path _ = _
      rw [hmem.2, hlp]
      unfold OS.append
      rw [hfiles1]
  · have hr' : ¬((∃ f, (l.withSink os1 l.path l.file).file = some f) ∧
        (l.withSink os1 l.path l.file).path = p) := hr
    rw [openFile_switch env _ p hp hr']
    have hok : ∀ os : OS, os.openFile env p =
        ({ os with files := os.append p "", opened := { fd := os.nextFd, path := p } :: os.opened,
                   nextFd := os.nextFd + 1, clock := os.clock + 1 },
         some { fd := os.nextFd, path := p }) := by
      intro os
      unfold OS.openFile
      simp [hopen]
    rw [hok]
    dsimp only
    have hcf : (l.withSink os1 l.path l.file).closeFile.os.files = l.os.files := by
      unfold logger.closeFile
      cases hfile : l.file <;> simp [logger.withSink, hfile, OS.close, hfiles1]
    generalize (l.withSink os1 l.path l.file).closeFile.os = os2 at hcf ⊢
    let osO : OS :=
      { os2 with files := os2.append p "", opened := { fd := os2.nextFd, path := p } :: os2.opened,
                 nextFd := os2.nextFd + 1, clock := os2.clock + 1 }
    refine ⟨{ osO with files := osO.append p (l.rendering lg ++ "\n"), clock := osO.clock + 1 },
      { fd := os2.nextFd, path := p }, ?_, ?_, rfl, ?_⟩
    · unfold logger.writeLine OS.writeString
      simp only [logger.withSink, List.mem_cons, true_or, if_true, hwrite]
    · simp [osO]
    · show osO.append p (l.rendering lg ++ "\n") = _
      funext q
      by_cases hq : q = p
      · simp [OS.append, osO, hq, hcf]
      · simp [OS.append, osO, hq, hcf]

theorem runLoop_writes (env : Env) (p : String)
    (hopen : ∀ n q, env.openOk n q = true) (hwrite : ∀ n, env.writeErr n = none)
    (hp : p ≠ "") (evs : List log) (l : logger) (hsink : l.sinkOk)
    (hpath : ∀ e ∈ evs, l.filePath e.timestamp = p) :
    ((logger.runLoop env evs l).os.files p).getD ""
        = (l.os.files p).getD "" ++ fileText (evs.map l.rendering) ∧
    (∀ q, q ≠ p → (logger.runLoop env evs l).os.files q = l.os.files q) := by
  induction evs generalizing l with
  | nil => simp [logger.runLoop, fileText]
  | cons e rest ih =>
    have hsink0 : ({ l with channel := rest } : logger).sinkOk := hsink
    have hpath0 : ({ l with channel := rest } : logger).filePath e.timestamp = p :=
      hpath e (List.mem_cons_self _ _)
    obtain ⟨os, f, hstep, hmem, hfp, hfiles⟩ :=
      runStep_writes env { l with channel := rest } e p hopen hwrite hsink0 hp hpath0
    have hsink1 : (({ l with channel := rest } : logger).withSink os p (some f)).sinkOk := by
      intro g hg
      have hgf : f = g := by simpa [logger.withSink] using hg
      subst hgf
      exact ⟨hmem, hfp⟩
    have hpath1 : ∀ e' ∈ rest,
        (({ l with channel := rest } : logger).withSink os p (some f)).filePath e'.timestamp = p :=
      fun e' he' => hpath e' (List.mem_cons_of_mem _ he')
    obtain ⟨ih1, ih2⟩ := ih _ hsink1 hpath1
    simp only [logger.runLoop, hstep]
    refine ⟨?_, ?_⟩
    · rw [ih1]
      show (os.files p).getD "" ++ fileText (rest.map l.rendering) = _
      rw [hfiles]
      show (l.os.append p (l.rendering e ++ "\n") p).getD "" ++ _ = _
      simp [OS.append, fileText, String.append_assoc]
    · intro q hq
      rw [ih2 q hq]
      show os.files q = _
      rw [hfiles]
      show l.os.append p (l.rendering e ++ "\n") q = _
      simp [OS.append, hq]

theorem closeFile_files (l : logger) : l.closeFile.os.files = l.os.files := by
  unfold logger.closeFile
  split <;> rfl

theorem runLoop_channel (env : Env) (l : logger) :
    (logger.runLoop env l.channel l).channel = [] := by
  obtain ⟨os, p, f, h | ⟨hnil, h⟩⟩ := runLoop_shape env l.channel l
  · rw [h]; rfl
  · rw [h]; exact hnil

/-- Calls run one after the other: when no open and no write fails, the sink
is consistent and every pending event resolves to the same non-empty path `p`,
`Sync` returns with the queue drained, and the text appended to the file `p` is the renderings of the
pending events, each followed by a newline, in the order in which they were
enqueued; no other file changes. -/
theorem fifo_writing (env : Env) (l : logger) (p : String)
    (hopen : ∀ n q, env.openOk n q = true) (hwrite : ∀ n, env.writeErr n = none)
    (hflag : l.flushed = false) (hch : l.closed = false) (hsink : l.sinkOk) (hp : p ≠ "")
    (hpath : ∀ e ∈ l.channel, l.filePath e.timestamp = p) :
    ∃ l', l.Sync env = some l' ∧ l'.channel = [] ∧
      (l'.os.files p).getD "" = (l.os.files p).getD "" ++ fileText (l.channel.map l.rendering) ∧
      (∀ q, q ≠ p → l'.os.files q = l.os.files q) := by
  have hw := runLoop_writes env p hopen hwrite hp l.channel
    { l with flushed := true, closed := true } hsink hpath
  have hchan := runLoop_channel env { l with flushed := true, closed := true }
  by_cases hearly : env.waitEarly = true
  · refine ⟨({ l with flushed := true, closed := true } : logger).runToDone env, ?_, ?_, ?_⟩
    · simp [logger.Sync, hflag, hch, hearly]
    · exact hchan
    · exact hw
  · refine ⟨({ l with flushed := true, closed := true } : logger).run env, ?_, ?_, ?_⟩
    · simp [logger.Sync, hflag, hch, hearly]
    · unfold logger.run
      dsimp only
      obtain ⟨os, h⟩ := closeFile_shape
        { logger.runLoop env l.channel { l with flushed := true, closed := true } with
          exited := true }
      rw [h]
      exact hchan
    · unfold logger.run
      dsimp only
      rw [closeFile_files]
      exact hw

/-! ### Structured encoding -/

theorem foldl_addItem (items : List logData) (r : List String) (hr : r ≠ []) :
    items.foldl (fun acc item => addItem acc item.key (marshalText item.value)) r
      = r ++ items.map (fun item => " \"" ++ item.key ++ "\": " ++ marshalText item.value) := by
  induction items generalizing r with
  | nil => simp
  | cons a rest ih =>
    have hlen : r.length > 0 := List.length_pos.mpr hr
    have hstep : addItem r a.key (marshalText a.value)
        = r ++ [" \"" ++ a.key ++ "\": " ++ marshalText a.value] := by
      unfold addItem
      simp [hlen]
    rw [List.foldl_cons, hstep, ih _ (by simp), List.map_cons, List.append_assoc]
    rfl

/-- The line `structured` builds: between `{ ` and ` }`, separated by commas,
the fields `lvl`, `ts` and `dt` and then one field per metadata entry, in
order; a key is written as it is, between double quotes, and the value is the
text `json.Marshal` returned, empty when it returned an error. -/
theorem structured_fields (lg : log) (formatter : TimeFormatter) :
    lg.structured formatter =
      "\x7b " ++ Join
        (["\"lvl\": " ++ jsonString lg.level,
          " \"ts\": " ++ intRepr lg.timestamp.Unix,
          " \"dt\": " ++ jsonString (formatter lg.timestamp "2006-01-02 15:04:05 Z0700")] ++
          lg.data.map (fun item => " \"" ++ item.key ++ "\": " ++ marshalText item.value)) ","
        ++ " \x7d" := by
  unfold log.structured
  dsimp only
  rw [foldl_addItem _ _ (by simp [addItem])]
  simp [addItem]

/-- C6, failing inputs. A key is copied into the line without escaping: for
the key `a"b` the field reads `"a"b": 1`, which is not a JSON member, and for a
key holding a line feed the line feed is in the output, which is then not a
single line. -/
theorem structured_key_not_escaped :
    quoteKeyEvent.structured dayFormatter
      = "\x7b \"lvl\": \"INFO\", \"ts\": 5, \"dt\": \"day0\", \"a\"b\": 1 \x7d" ∧
    TrimSpace "a\nb" ≠ "" ∧
    newlineKeyEvent.structured dayFormatter
      = "\x7b \"lvl\": \"INFO\", \"ts\": 5, \"dt\": \"day0\", \"a\nb\": 1 \x7d" ∧
    '\n' ∈ (newlineKeyEvent.structured dayFormatter).data := by
  decide

/-- C7, failing input. For a value that `json.Marshal` rejects the field is
written with nothing after its colon, not with `null`. -/
theorem structured_encode_failure_empty :
    jsonMarshal (Value.chan 1) = none ∧
    chanEvent.structured dayFormatter
      = "\x7b \"lvl\": \"INFO\", \"ts\": 5, \"dt\": \"day0\", \"user\": \"alice\", \"f\":  \x7d" ∧
    chanEvent.structured dayFormatter
      ≠ "\x7b \"lvl\": \"INFO\", \"ts\": 5, \"dt\": \"day0\", \"user\": \"alice\", \"f\": null \x7d" := by
  decide

/-! ### Concurrent calls -/

theorem getElem?_set_cases {α : Type} (xs : List α) (i j : Nat) (x y : α)
    (h : (xs.set i x)[j]? = some y) : (j = i ∧ y = x) ∨ (j ≠ i ∧ xs[j]? = some y) := by
  rw [List.getElem?_set] at h
  by_cases hij : i = j
  · left
    rw [if_pos hij] at h
    split at h
    · exact ⟨hij.symm, (Option.some.inj h).symm⟩
    · exact absurd h (by simp)
  · right
    rw [if_neg hij] at h
    exact ⟨fun hji => hij hji.symm, h⟩

/-- A step that moves one thread to a program point other than `closing`, and
does not make a `Sync` panic, keeps the invariant when the flag and the closed
bit stay as they are. -/
theorem closeInv_of_set (s s' : System) (i : Nat) (t : Thread) (pc : PC)
    (hthreads : s'.threads = s.threads.set i { t with pc := pc })
    (_hi : s.threads[i]? = some t) (hpc : pc ≠ PC.closing)
    (hpan : t.isSync = true → pc ≠ PC.panicked)
    (hc : s'.l.closed = s.l.closed) (hf : s'.l.flushed = s.l.flushed) (h : s.closeInv) :
    s'.closeInv := by
  obtain ⟨h1, h2, h3, h4⟩ := h
  refine ⟨?_, ?_, ?_, ?_⟩
  · rw [hc, hf]; exact h1
  · intro j tj hj hcl
    rw [hthreads] at hj
    rw [hc, hf]
    rcases getElem?_set_cases _ _ _ _ _ hj with ⟨_, htj⟩ | ⟨_, hj'⟩
    · rw [htj] at hcl
      exact absurd hcl hpc
    · exact h2 j tj hj' hcl
  · intro j k tj tk hj hk hcj hck
    rw [hthreads] at hj hk
    rcases getElem?_set_cases _ _ _ _ _ hj with ⟨_, htj⟩ | ⟨_, hj'⟩
    · rw [htj] at hcj
      exact absurd hcj hpc
    · rcases getElem?_set_cases _ _ _ _ _ hk with ⟨_, htk⟩ | ⟨_, hk'⟩
      · rw [htk] at hck
        exact absurd hck hpc
      · exact h3 j k tj tk hj' hk' hcj hck
  · intro j tj hj hsync
    rw [hthreads] at hj
    rcases getElem?_set_cases _ _ _ _ _ hj with ⟨_, htj⟩ | ⟨_, hj'⟩
    · rw [htj] at hsync ⊢
      exact hpan hsync
    · exact h4 j tj hj' hsync

theorem closeInv_of_same (s s' : System) (hthreads : s'.threads = s.threads)
    (hc : s'.l.closed = s.l.closed) (hf : s'.l.flushed = s.l.flushed) (h : s.closeInv) :
    s'.closeInv := by
  unfold System.closeInv
  rw [hthreads, hc, hf]
  exact h

theorem runStep_closed (env : Env) (l : logger) (lg : log) :
    (l.runStep env lg).closed = l.closed := by
  obtain ⟨os, p, f, h⟩ := runStep_shape env l lg
  rw [h]; rfl

theorem runStep_flushed (env : Env) (l : logger) (lg : log) :
    (l.runStep env lg).flushed = l.flushed := by
  obtain ⟨os, p, f, h⟩ := runStep_shape env l lg
  rw [h]; rfl

theorem closeFile_closed (l : logger) : l.closeFile.closed = l.closed := by
  obtain ⟨os, h⟩ := closeFile_shape l
  rw [h]; rfl

theorem closeInv_stepWorker (env : Env) (s : System) (h : s.closeInv) :
    (s.stepWorker env).closeInv := by
  unfold System.stepWorker
  split
  · exact h
  · split
    · split
      · exact closeInv_of_same s _ rfl (runStep_closed env _ _) (runStep_flushed env _ _) h
      · split
        · exact closeInv_of_same s _ rfl rfl rfl h
        · exact h
    · exact closeInv_of_same s _ rfl (closeFile_closed _) (closeFile_flushed _) h
    · exact h

theorem closeInv_stepThread (s : System) (i : Nat) (h : s.closeInv) :
    (s.stepThread i).closeInv := by
  unfold System.stepThread
  split
  · exact h
  · split
    · exact h
    · rename_i t hi
      split
      · -- a level method reads the flag
        split
        · exact closeInv_of_set s _ i t PC.returned rfl hi (by decide) (by intro _; decide) rfl rfl h
        · exact closeInv_of_set s _ i t PC.passed rfl hi (by decide) (by intro _; decide) rfl rfl h
      · -- a level method builds its event
        dsimp only
        split
        · exact closeInv_of_set s _ i t PC.returned rfl hi (by decide) (by intro _; decide) rfl rfl h
        · exact closeInv_of_set s _ i t (PC.sending _) rfl hi (by simp) (by intro _; simp) rfl rfl h
      · -- a level method sends
        rename_i hcall hpc
        split
        · refine closeInv_of_set s _ i t PC.panicked rfl hi (by decide) ?_ rfl rfl h
          intro hsync
          simp [Thread.isSync, hcall] at hsync
        · split
          · exact closeInv_of_set s _ i t PC.returned rfl hi (by decide) (by intro _; decide)
              rfl rfl h
          · exact h
      · -- Sync swaps the flag
        rename_i hcall hpc
        split
        · rename_i hopen
          obtain ⟨h1, h2, h3, h4⟩ := h
          have hnoclosing : ∀ (j : Nat) (tj : Thread), s.threads[j]? = some tj →
              tj.pc ≠ PC.closing := by
            intro j tj hj hcl
            have := (h2 j tj hj hcl).1
            rw [hopen] at this
            exact absurd this (by decide)
          have hclosed : s.l.closed = false := by
            cases hcl : s.l.closed with
            | false => rfl
            | true => rw [h1 hcl] at hopen; exact absurd hopen (by decide)
          refine ⟨fun _ => rfl, ?_, ?_, ?_⟩
          · intro j tj hj hcl
            exact ⟨rfl, hclosed⟩
          · intro j k tj tk hj hk hcj hck
            rcases getElem?_set_cases _ _ _ _ _ hj with ⟨hji, _⟩ | ⟨_, hj'⟩
            · rcases getElem?_set_cases _ _ _ _ _ hk with ⟨hki, _⟩ | ⟨_, hk'⟩
              · rw [hji, hki]
              · exact absurd hck (hnoclosing k tk hk')
            · exact absurd hcj (hnoclosing j tj hj')
          · intro j tj hj hsync
            rcases getElem?_set_cases _ _ _ _ _ hj with ⟨_, htj⟩ | ⟨_, hj'⟩
            · rw [htj]; simp
            · exact h4 j tj hj' hsync
        · exact closeInv_of_set s _ i t PC.returned rfl hi (by decide) (by intro _; decide) rfl rfl h
      · -- Sync closes the channel
        rename_i hcall hpc
        obtain ⟨h1, h2, h3, h4⟩ := h
        have hmine := h2 i t hi hpc
        split
        · rename_i hcl
          rw [hmine.2] at hcl
          exact absurd hcl (by decide)
        · have hnoother : ∀ (j : Nat) (tj : Thread),
              (s.threads.set i { t with pc := PC.waiting })[j]? = some tj →
              tj.pc ≠ PC.closing := by
            intro j tj hj hcl
            rcases getElem?_set_cases _ _ _ _ _ hj with ⟨_, htj⟩ | ⟨hji, hj'⟩
            · rw [htj] at hcl
              simp at hcl
            · exact hji (h3 j i tj t hj' hi hcl hpc)
          refine ⟨fun _ => hmine.1, ?_, ?_, ?_⟩
          · intro j tj hj hcl
            exact absurd hcl (hnoother j tj hj)
          · intro j k tj tk hj hk hcj hck
            exact absurd hcj (hnoother j tj hj)
          · intro j tj hj hsync
            rcases getElem?_set_cases _ _ _ _ _ hj with ⟨_, htj⟩ | ⟨_, hj'⟩
            · rw [htj]; simp
            · exact h4 j tj hj' hsync
      · -- Sync waits for the worker
        split
        · exact closeInv_of_set s _ i t PC.returned rfl hi (by decide) (by intro _; decide) rfl rfl h
        · exact h
      · exact h

theorem closeInv_init (l : logger) (cap : Nat) (calls : List Op)
    (hl : l.closed = true → l.flushed = true) : (System.init l cap calls).closeInv := by
  have hstart : ∀ (i : Nat) (t : Thread),
      (System.init l cap calls).threads[i]? = some t → t.pc = PC.start := by
    intro i t hi
    simp only [System.init, List.getElem?_map, Option.map_eq_some'] at hi
    obtain ⟨c, _, hc⟩ := hi
    rw [← hc]
  refine ⟨hl, ?_, ?_, ?_⟩
  · intro i t hi hcl
    rw [hstart i t hi] at hcl
    exact absurd hcl (by decide)
  · intro i j ti tj hi _ hcl
    rw [hstart i ti hi] at hcl
    exact absurd hcl (by decide)
  · intro i t hi _
    rw [hstart i t hi]
    decide

theorem closeInv_runSchedule (env : Env) (sched : List Turn) (s : System) (h : s.closeInv) :
    (s.runSchedule env sched).closeInv := by
  unfold System.runSchedule
  induction sched generalizing s with
  | nil => exact h
  | cons turn rest ih =>
    rw [List.foldl_cons]
    apply ih
    cases turn with
    | thread i => exact closeInv_stepThread s i h
    | worker => exact closeInv_stepWorker env s h

/-- The part of C10 that holds: under every schedule of any calls on a logger
whose channel is open, no call of `Sync` panics, that is, no `close` is ever
performed on a channel that is already closed. -/
theorem close_at_most_once (env : Env) (l : logger) (cap : Nat) (calls : List Op)
    (sched : List Turn) (hl : l.closed = true → l.flushed = true) (i : Nat) (t : Thread)
    (hi : ((System.init l cap calls).runSchedule env sched).threads[i]? = some t)
    (hsync : t.isSync = true) : t.pc ≠ PC.panicked :=
  (closeInv_runSchedule env sched _ (closeInv_init l cap calls hl)).2.2.2 i t hi hsync

/-- C10, failing schedule. `Info` reads the flag while it is open, `Sync` then
swaps the flag and closes the channel, and the send of `Info` finds the
channel closed: the goroutine panics and the process crashes. -/
theorem send_on_closed_channel :
    (raceSystem.runSchedule Env.reliable raceSchedule).pcs = [PC.panicked, PC.waiting] ∧
    (raceSystem.runSchedule Env.reliable raceSchedule).crashed = true ∧
    (raceSystem.runSchedule Env.reliable raceSchedule).l.closed = true := by
  decide

/-! ### First in, first out under every schedule -/

theorem stepThread_effect (s : System) (i : Nat) :
    (s.stepThread i).worker = s.worker ∧
    ((s.sends (Turn.thread i) = [] ∧
        ((s.stepThread i).l = s.l ∨ (s.stepThread i).l = { s.l with flushed := true } ∨
          (s.stepThread i).l = { s.l with closed := true })) ∨
      (∃ lg, s.sends (Turn.thread i) = [lg] ∧ s.l.closed = false ∧
        (s.stepThread i).l = { s.l with channel := s.l.channel ++ [lg] })) := by
  by_cases hcr : s.crashed = true
  · simp [System.stepThread, System.sends, hcr]
  · cases hi : s.threads[i]? with
    | none => simp [System.stepThread, System.sends, hcr, hi]
    | some t =>
      obtain ⟨call, pc⟩ := t
      cases call <;> cases pc <;>
        simp only [System.stepThread, System.sends, hcr, hi, if_false, Bool.false_eq_true] <;>
        (try split_ifs) <;>
        simp_all [System.move, System.panic]

theorem fileText_append (a b : List String) :
    fileText (a ++ b) = fileText a ++ fileText b := by
  induction a with
  | nil => simp [fileText]
  | cons x rest ih => simp [fileText, ih, String.append_assoc]

theorem rendering_config (l l' : logger) (h : l.sameConfig l') (lg : log) :
    l'.rendering lg = l.rendering lg := by
  obtain ⟨h1, h2, _⟩ := h
  unfold logger.rendering
  rw [h1, h2]

theorem filePath_config (l l' : logger) (h : l.sameConfig l') (ts : Time) :
    l'.filePath ts = l.filePath ts := by
  obtain ⟨_, h2, h3, h4, h5, h6⟩ := h
  unfold logger.filePath
  rw [h2, h3, h4, h5, h6]

theorem fifoInv_stepThread (l0 : logger) (p : String) (sent : List log) (s : System) (i : Nat)
    (h : s.fifoInv l0 p sent)
    (hpath : ∀ e ∈ s.sends (Turn.thread i), l0.filePath e.timestamp = p) :
    (s.stepThread i).fifoInv l0 p (sent ++ s.sends (Turn.thread i)) := by
  obtain ⟨h1, h2, h3, h4, h5, h6⟩ := h
  obtain ⟨hw, heff⟩ := stepThread_effect s i
  unfold System.fifoInv
  rw [hw]
  rcases heff with ⟨hs, hl | hl | hl⟩ | ⟨lg, hs, hcl, hl⟩
  · rw [hs, hl, List.append_nil]
    exact ⟨h1, h2, h3, h4, h5, h6⟩
  · rw [hs, hl, List.append_nil]
    exact ⟨h1, h2, h3, h4, h5, h6⟩
  · rw [hs, hl, List.append_nil]
    exact ⟨h1, h2, h3, h4, h5, fun hne => ⟨(h6 hne).1, rfl⟩⟩
  · rw [hs, hl]
    refine ⟨h1, h2, ?_, h4, ?_, ?_⟩
    · show (s.l.os.files p).getD "" ++ fileText ((s.l.channel ++ [lg]).map l0.rendering) = _
      simp only [List.map_append, fileText_append] at h3 ⊢
      rw [← String.append_assoc, h3]
      simp only [String.append_assoc]
    · intro e he
      have he' : e ∈ s.l.channel ++ [lg] := he
      rcases List.mem_append.mp he' with hin | hin
      · exact h5 e hin
      · apply hpath
        rw [hs]
        exact hin
    · intro hne
      have := (h6 hne).2
      rw [hcl] at this
      exact absurd this (by decide)

theorem fifoInv_stepWorker (env : Env) (l0 : logger) (p : String) (sent : List log)
    (s : System) (hopen : ∀ n q, env.openOk n q = true) (hwrite : ∀ n, env.writeErr n = none)
    (hp : p ≠ "") (h : s.fifoInv l0 p sent) :
    (s.stepWorker env).fifoInv l0 p sent := by
  obtain ⟨h1, h2, h3, h4, h5, h6⟩ := h
  unfold System.stepWorker
  split
  · exact ⟨h1, h2, h3, h4, h5, h6⟩
  · split
    · rename_i hloop
      split
      · rename_i lg rest hch
        have hsink0 : ({ s.l with channel := rest } : logger).sinkOk := h1 hloop
        have hconf0 : l0.sameConfig { s.l with channel := rest } := h2
        have hlg : l0.filePath lg.timestamp = p := h5 lg (by rw [hch]; exact List.mem_cons_self _ _)
        have hpath0 : ({ s.l with channel := rest } : logger).filePath lg.timestamp = p := by
          rw [filePath_config l0 _ hconf0]; exact hlg
        obtain ⟨os, f, hstep, hmem, hfp, hfiles⟩ :=
          runStep_writes env { s.l with channel := rest } lg p hopen hwrite hsink0 hp hpath0
        have hrend : ({ s.l with channel := rest } : logger).rendering lg = l0.rendering lg :=
          rendering_config l0 _ hconf0 lg
        rw [hrend] at hfiles
        unfold System.fifoInv
        dsimp only
        rw [hstep]
        refine ⟨?_, h2, ?_, ?_, ?_, ?_⟩
        · intro _ g hg
          have hgf : f = g := by simpa [logger.withSink] using hg
          subst hgf
          exact ⟨hmem, hfp⟩
        · show (os.files p).getD "" ++ fileText (rest.map l0.rendering) = _
          rw [← h3, hch, hfiles]
          show (s.l.os.append p (l0.rendering lg ++ "\n") p).getD "" ++ _ = _
          simp [OS.append, fileText, String.append_assoc]
        · intro q hq
          show os.files q = _
          rw [hfiles, ← h4 q hq]
          show s.l.os.append p (l0.rendering lg ++ "\n") q = _
          simp [OS.append, hq]
        · intro e he
          have he' : e ∈ rest := he
          exact h5 e (by rw [hch]; exact List.mem_cons_of_mem _ he')
        · intro hne
          exact absurd hloop hne
      · rename_i hch
        split
        · rename_i hcl
          refine ⟨?_, h2, h3, h4, h5, ?_⟩
          · intro hw
            exact absurd hw (by simp)
          · intro _
            exact ⟨hch, hcl⟩
        · exact ⟨h1, h2, h3, h4, h5, h6⟩
    · rename_i hsig
      have hne : s.worker ≠ WorkerPC.looping := by rw [hsig]; decide
      obtain ⟨os, hshape⟩ := closeFile_shape s.l
      refine ⟨?_, ?_, ?_, ?_, ?_, ?_⟩
      · intro hw
        exact absurd hw (by simp)
      · show l0.sameConfig s.l.closeFile
        rw [hshape]; exact h2
      · show (s.l.closeFile.os.files p).getD "" ++ fileText (s.l.closeFile.channel.map _) = _
        rw [closeFile_files, hshape]
        exact h3
      · intro q hq
        show s.l.closeFile.os.files q = _
        rw [closeFile_files]
        exact h4 q hq
      · intro e he
        have he' : e ∈ s.l.closeFile.channel := he
        rw [hshape] at he'
        exact h5 e he'
      · intro _
        show s.l.closeFile.channel = [] ∧ s.l.closeFile.closed = true
        rw [hshape]
        exact h6 hne
    · exact ⟨h1, h2, h3, h4, h5, h6⟩

theorem fifoInv_runSchedule (env : Env) (l0 : logger) (p : String)
    (hopen : ∀ n q, env.openOk n q = true) (hwrite : ∀ n, env.writeErr n = none)
    (hp : p ≠ "") (sched : List Turn) (sent : List log) (s : System)
    (h : s.fifoInv l0 p sent)
    (hpath : ∀ e ∈ System.sentAlong env s sched, l0.filePath e.timestamp = p) :
    (s.runSchedule env sched).fifoInv l0 p (sent ++ System.sentAlong env s sched) := by
  induction sched generalizing s sent with
  | nil =>
    simp only [System.sentAlong, List.append_nil]
    exact h
  | cons turn rest ih =>
    have hhead : ∀ e ∈ s.sends turn, l0.filePath e.timestamp = p := by
      intro e he
      apply hpath
      simp only [System.sentAlong]
      exact List.mem_append_left _ he
    have htail : ∀ e ∈ System.sentAlong env (s.step env turn) rest,
        l0.filePath e.timestamp = p := by
      intro e he
      apply hpath
      simp only [System.sentAlong]
      exact List.mem_append_right _ he
    have hstep : (s.step env turn).fifoInv l0 p (sent ++ s.sends turn) := by
      cases turn with
      | thread i => exact fifoInv_stepThread l0 p sent s i h hhead
      | worker =>
        have := fifoInv_stepWorker env l0 p sent s hopen hwrite hp h
        simpa [System.step, System.sends] using this
    have := ih (sent ++ s.sends turn) (s.step env turn) hstep htail
    simp only [System.sentAlong, ← List.append_assoc]
    exact this

theorem fifoInv_init (l : logger) (cap : Nat) (calls : List Op) (p : String)
    (hsink : l.sinkOk) (hpend : ∀ e ∈ l.channel, l.filePath e.timestamp = p) :
    (System.init l cap calls).fifoInv l p [] := by
  refine ⟨fun _ => hsink, ⟨rfl, rfl, rfl, rfl, rfl, rfl⟩, ?_, fun _ _ => rfl, hpend, ?_⟩
  · simp [System.init]
  · intro hne
    exact absurd rfl hne

theorem linesFrom_line (r rest cur : List Char) (hr : '\n' ∉ r) :
    linesFrom (r ++ '\n' :: rest) cur = ⟨cur.reverse ++ r⟩ :: linesFrom rest [] := by
  induction r generalizing cur with
  | nil => simp [linesFrom]
  | cons c cs ih =>
    have hc : c ≠ '\n' := fun hcn => hr (by rw [hcn]; exact List.mem_cons_self _ _)
    have hcs : '\n' ∉ cs := fun hin => hr (List.mem_cons_of_mem _ hin)
    simp [linesFrom, hc, ih (c :: cur) hcs]

/-- The lines of a text made of lines without a line feed are those lines. -/
theorem linesOf_fileText (rs : List String) (h : ∀ r ∈ rs, '\n' ∉ r.data) :
    linesOf (fileText rs) = rs := by
  induction rs with
  | nil => rfl
  | cons r rest ih =>
    have hr : '\n' ∉ r.data := h r (List.mem_cons_self _ _)
    have hrest : ∀ x ∈ rest, '\n' ∉ x.data := fun x hx => h x (List.mem_cons_of_mem _ hx)
    have hdata : (fileText (r :: rest)).data = r.data ++ '\n' :: (fileText rest).data := by
      simp [fileText, String.data_append]
    unfold linesOf at ih ⊢
    rw [hdata, linesFrom_line _ _ _ hr, ih hrest]
    rfl

theorem runStep_exited (env : Env) (l : logger) (lg : log) :
    (l.runStep env lg).exited = l.exited := by
  obtain ⟨os, p, f, h⟩ := runStep_shape env l lg
  rw [h]; rfl

/-- The worker signals `wg.Done()` only after it has left its loop. -/
theorem exited_left_loop (env : Env) (sched : List Turn) (s : System)
    (h : s.l.exited = true → s.worker ≠ WorkerPC.looping) :
    (s.runSchedule env sched).l.exited = true →
      (s.runSchedule env sched).worker ≠ WorkerPC.looping := by
  unfold System.runSchedule
  induction sched generalizing s with
  | nil => exact h
  | cons turn rest ih =>
    rw [List.foldl_cons]
    apply ih
    cases turn with
    | thread i =>
      obtain ⟨hw, heff⟩ := stepThread_effect s i
      show (s.stepThread i).l.exited = true → (s.stepThread i).worker ≠ WorkerPC.looping
      rw [hw]
      rcases heff with ⟨_, hl | hl | hl⟩ | ⟨lg, _, _, hl⟩ <;> rw [hl] <;> exact h
    | worker =>
      show (s.stepWorker env).l.exited = true → (s.stepWorker env).worker ≠ WorkerPC.looping
      unfold System.stepWorker
      split
      · exact h
      · split
        · split
          · intro hex
            have hex' : (({ s.l with channel := _ } : logger).runStep env _).exited = true := hex
            rw [runStep_exited] at hex'
            exact h hex'
          · split
            · intro _
              simp
            · exact h
        · intro _
          simp
        · exact h

/-- C3, as amended. Under every schedule of calls and worker on a channel of
any capacity, when no open and no write fails, the sink is consistent and
every event enqueued resolves to the same non-empty path `p`: at every moment
the text of `p` followed by the lines of the events still pending is the text
at the start followed by the rendering of every event enqueued, each with its
newline, in the order of enqueueing, and no other file has changed; once the
worker has signalled, which is what `Sync` waits for, the channel is empty and
the text appended to `p` is exactly that; and when no rendering holds a line
feed, the lines appended are exactly the renderings, one line each, in that
order. -/
theorem fifo_lines (env : Env) (l : logger) (cap : Nat) (calls : List Op) (sched : List Turn)
    (p : String)
    (hopen : ∀ n q, env.openOk n q = true) (hwrite : ∀ n, env.writeErr n = none)
    (hsink : l.sinkOk) (hfresh : l.exited = false) (hp : p ≠ "")
    (hpath : ∀ e ∈ System.enqueued env l cap calls sched, l.filePath e.timestamp = p) :
    (((System.init l cap calls).runSchedule env sched).l.os.files p).getD "" ++
        fileText (((System.init l cap calls).runSchedule env sched).l.channel.map l.rendering)
      = (l.os.files p).getD "" ++
        fileText ((System.enqueued env l cap calls sched).map l.rendering) ∧
    (∀ q, q ≠ p → ((System.init l cap calls).runSchedule env sched).l.os.files q = l.os.files q) ∧
    (((System.init l cap calls).runSchedule env sched).l.exited = true →
      ((System.init l cap calls).runSchedule env sched).l.channel = [] ∧
      (((System.init l cap calls).runSchedule env sched).l.os.files p).getD ""
        = (l.os.files p).getD "" ++
          fileText ((System.enqueued env l cap calls sched).map l.rendering)) ∧
    ((∀ e ∈ System.enqueued env l cap calls sched, '\n' ∉ (l.rendering e).data) →
      linesOf (fileText ((System.enqueued env l cap calls sched).map l.rendering))
        = (System.enqueued env l cap calls sched).map l.rendering) := by
  have hpend : ∀ e ∈ l.channel, l.filePath e.timestamp = p := fun e he =>
    hpath e (List.mem_append_left _ he)
  have hsent : ∀ e ∈ System.sentAlong env (System.init l cap calls) sched,
      l.filePath e.timestamp = p := fun e he => hpath e (List.mem_append_right _ he)
  have hinv := fifoInv_runSchedule env l p hopen hwrite hp sched [] (System.init l cap calls)
    (fifoInv_init l cap calls p hsink hpend) hsent
  obtain ⟨_, _, h3, h4, _, h6⟩ := hinv
  rw [List.nil_append] at h3
  have hleft := exited_left_loop env sched (System.init l cap calls)
    (fun hex => absurd (show l.exited = true from hex) (by rw [hfresh]; decide))
  refine ⟨h3, h4, ?_, ?_⟩
  · intro hex
    have hch := (h6 (hleft hex)).1
    refine ⟨hch, ?_⟩
    have h3' := h3
    rw [hch, List.map_nil] at h3'
    simp only [fileText, String.append_empty] at h3'
    exact h3'
  · intro hnl
    apply linesOf_fileText
    intro r hr
    obtain ⟨e, he, hre⟩ := List.mem_map.mp hr
    rw [← hre]
    exact hnl e he

/-! ### The theorems at concrete inputs -/

/-- C1 at a concrete input: `Info` with `With("user", "alice")` and
`WithMessage("login")` on a fresh logger. -/
theorem level_gating_witness :
    demoLogger.flushed = false ∧
    demoLogger.call Method.Info demoTime (demoOpts.map Opt.fn) =
      some (if demoOpts.any Opt.attaches = true ∧ (Method.Info = Method.Debug → demoLogger.dev = true)
            then { demoLogger with channel := demoLogger.channel ++
                    [{ level := Method.Info.level, timestamp := demoTime,
                       data := expectedMetadata demoOpts }] }
            else demoLogger) ∧
    expectedMetadata demoOpts =
      [{ key := "user", value := Value.str "alice" }, { key := "message", value := Value.str "login" }] :=
  ⟨rfl, (level_gating demoLogger Method.Info demoTime demoOpts rfl (by decide)).1, by decide⟩

/-- C2 at a concrete input: calls after `Sync` on a logger with two pending
events. -/
theorem flushed_inert_witness :
    demoPending.Sync Env.reliable = some demoFlushed ∧
    demoFlushed.flushed = true ∧
    demoFlushed.execAll Env.reliable
      [Op.level Method.Info demoTime (demoOpts.map Opt.fn), Op.sync,
       Op.level Method.Debug demoTime []] = some demoFlushed :=
  ⟨rfl, (flushed_inert Env.reliable demoPending demoFlushed rfl).1,
    (flushed_inert Env.reliable demoPending demoFlushed rfl).2 Env.reliable _⟩

/-- The sequential case at a concrete input: two pending events bound for
`logs/app-day0.log`. -/
theorem fifo_writing_witness :
    demoPending.flushed = false ∧ demoPending.closed = false ∧
    (∀ e ∈ demoPending.channel, demoPending.filePath e.timestamp = "logs/app-day0.log") ∧
    fileText (demoPending.channel.map demoPending.rendering) =
      "\x7b \"lvl\": \"INFO\", \"ts\": 5, \"dt\": \"day0\", \"seq\": 1 \x7d\n" ++
      "\x7b \"lvl\": \"WARN\", \"ts\": 9, \"dt\": \"day0\", \"seq\": 2 \x7d\n" ∧
    ∃ l', demoPending.Sync Env.reliable = some l' ∧ l'.channel = [] ∧
      (l'.os.files "logs/app-day0.log").getD "" =
        (demoPending.os.files "logs/app-day0.log").getD "" ++
          fileText (demoPending.channel.map demoPending.rendering) ∧
      (∀ q, q ≠ "logs/app-day0.log" → l'.os.files q = demoPending.os.files q) :=
  ⟨rfl, rfl, by decide, by decide,
    fifo_writing Env.reliable demoPending "logs/app-day0.log" (fun _ _ => rfl) (fun _ => rfl)
      rfl rfl (fun f hf => Option.noConfusion (show (none : Option Handle) = some f from hf))
      (by decide) (by decide)⟩

/-- C4 at a concrete input: root `./logs`, `prefix` `app-`, extension `.log`. -/
theorem filePath_formula_witness :
    demoLogger.pfx ++ demoLogger.formatter demoTime demoLogger.layout ≠ "" ∧
    demoLogger.filePath demoTime = specPath "./logs" "app-" ".log" "day0" ∧
    specPath "./logs" "app-" ".log" "day0" = "logs/app-day0.log" :=
  ⟨by decide, (filePath_formula demoLogger demoTime (by decide)).1, by decide⟩

/-- C5, as amended, at a concrete input: no `prefix` and an empty bucket
string. -/
theorem empty_name_skipped_witness :
    bareLogger.pfx ++ bareLogger.formatter demoEvent1.timestamp bareLogger.layout = "" ∧
    bareLogger.runStep Env.reliable demoEvent1 = bareLogger :=
  ⟨by decide, empty_name_skipped Env.reliable bareLogger demoEvent1 (by decide)⟩

/-- C5, counterexample. With the `prefix` `app` and a formatter that gives the
empty string, the event is not skipped: the worker opens `logs/app` and writes
the line to it. -/
theorem empty_bucket_written :
    prefixedLogger.formatter demoEvent1.timestamp prefixedLogger.layout = "" ∧
    prefixedLogger.os.files "logs/app" = none ∧
    (prefixedLogger.runStep Env.reliable demoEvent1).file = some { fd := 3, path := "logs/app" } ∧
    (prefixedLogger.runStep Env.reliable demoEvent1).os.files "logs/app"
      = some "\x7b \"lvl\": \"INFO\", \"ts\": 5, \"dt\": \"\", \"seq\": 1 \x7d\n" := by
  decide

/-- C9 at a concrete input: the sink holds `logs/old` and is asked for
`logs/new`. -/
theorem openFile_contract_witness :
    "logs/new" ≠ "" ∧
    demoOpen.file = some { fd := 3, path := "logs/old" } ∧
    (demoOpen.openFile Env.reliable "logs/new").file = some { fd := 4, path := "logs/new" } ∧
    ((demoOpen.openFile Env.reliable "logs/new").os.opened
        = (demoOpen.openFile Env.reliable "logs/new").file.toList ∧
      (demoOpen.openFile Env.reliable "logs/new").os.opened.length ≤ 1) :=
  ⟨by decide, by decide, by decide,
    (openFile_contract Env.reliable demoOpen "logs/new" (by decide)).2.2.2 (by decide)⟩

/-- C3, as amended, at a concrete input: `Info`, `Warn` and `Sync` on a channel
of capacity one, `Warn` waiting for room until the worker has written the first
event. -/
theorem fifo_lines_witness :
    (∀ e ∈ System.enqueued Env.reliable demoLogger 1 fifoCalls fifoSchedule,
      demoLogger.filePath e.timestamp = "logs/app-day0.log") ∧
    (∀ e ∈ System.enqueued Env.reliable demoLogger 1 fifoCalls fifoSchedule,
      '\n' ∉ (demoLogger.rendering e).data) ∧
    ((System.init demoLogger 1 fifoCalls).runSchedule Env.reliable fifoSchedule).l.exited = true ∧
    (System.enqueued Env.reliable demoLogger 1 fifoCalls fifoSchedule).length = 2 ∧
    fileLinesAt "logs/app-day0.log"
        ((System.init demoLogger 1 fifoCalls).runSchedule Env.reliable fifoSchedule).l
      = ["\x7b \"lvl\": \"INFO\", \"ts\": 5, \"dt\": \"day0\", \"user\": \"alice\", \"message\": \"login\" \x7d",
         "\x7b \"lvl\": \"WARN\", \"ts\": 9, \"dt\": \"day0\", \"seq\": 2 \x7d"] ∧
    linesOf (fileText ((System.enqueued Env.reliable demoLogger 1 fifoCalls fifoSchedule).map
        demoLogger.rendering))
      = (System.enqueued Env.reliable demoLogger 1 fifoCalls fifoSchedule).map
          demoLogger.rendering :=
  ⟨by decide, by decide, by decide, by decide, by decide,
    (fifo_lines Env.reliable demoLogger 1 fifoCalls fifoSchedule "logs/app-day0.log"
      (fun _ _ => rfl) (fun _ => rfl)
      (fun f hf => Option.noConfusion (show (none : Option Handle) = some f from hf))
      rfl (by decide) (by decide)).2.2.2 (by decide)⟩

/-- C3, counterexample. In simple mode `Info(WithMessage("first\nsecond"))`
enqueues one event; after `Sync`, with no failure, the file holds two lines for
it, neither of which is its rendering. -/
theorem one_event_two_lines :
    (simpleLogger.call Method.Info demoTime (twoLineOpts.map Opt.fn)).map logger.channel
      = some [twoLineEvent] ∧
    simpleLogger.filePath twoLineEvent.timestamp = "logs/app-day0.log" ∧
    simpleLogger.rendering twoLineEvent = "day0 INFO message: \"first\nsecond\" " ∧
    ((simpleLogger.call Method.Info demoTime (twoLineOpts.map Opt.fn)).bind
        (logger.Sync Env.reliable)).map (fileLinesAt "logs/app-day0.log")
      = some ["day0 INFO message: \"first", "second\" "] ∧
    ["day0 INFO message: \"first", "second\" "] ≠ [simpleLogger.rendering twoLineEvent] := by
  decide

end GoLogger
